import Mathlib

/-! Shallow embedding of the archi-view-importer merge tool (src/main.rs).

XML documents are modelled as arenas of numbered nodes (mirroring the xot
arena the program uses); a node's recorded serialized form (`xml_string`) is
modelled as the subtree value it parses back to (`XTree`), since the program
only ever serializes a subtree at index time and re-parses that exact text
when cloning.  Rust `HashMap`s are modelled as association lists whose list
order stands for the (seed-dependent) iteration order of the map; `Result`
values and `unwrap` panics are modelled with `Option`. -/

namespace ArchiView

/-- Association list lookup, first entry wins (models HashMap get and xot
attribute lookup). -/
def alookup {κ α : Type} [DecidableEq κ] : List (κ × α) → κ → Option α
  | [], _ => none
  | p :: rest, k => if p.1 = k then some p.2 else alookup rest k

/-- Association list insert-or-replace (models HashMap insert and xot
set_attribute). -/
def aset {κ α : Type} [DecidableEq κ] : List (κ × α) → κ → α → List (κ × α)
  | [], k, v => [(k, v)]
  | p :: rest, k, v => if p.1 = k then (k, v) :: rest else p :: aset rest k v

/-- Key membership (models HashMap contains_key). -/
def keyMem {κ α : Type} [DecidableEq κ] (m : List (κ × α)) (k : κ) : Bool :=
  (alookup m k).isSome

/-- Snapshot of an XML subtree: the value a recorded serialized form parses
back to.  Element nodes carry their tag name, attributes and children; text
nodes carry their text. -/
inductive XTree : Type where
  | elem (name : String) (attrs : List (String × String)) (children : List XTree) : XTree
  | text (s : String) : XTree

/-- Payload of an arena node: an element's tag name and attributes, or a text
node's text. -/
inductive XData : Type where
  | elem (name : String) (attrs : List (String × String)) : XData
  | text (s : String) : XData
deriving DecidableEq

/-- One node of the arena: payload plus the ordered list of child node ids. -/
structure XNode where
  data : XData
  children : List Nat
deriving DecidableEq

/-- The xot arena: nodes keyed by id, plus the next fresh id. -/
structure Arena where
  nodes : List (Nat × XNode)
  next : Nat
deriving DecidableEq

def Arena.lookup (a : Arena) (n : Nat) : Option XNode :=
  alookup a.nodes n

/-- Model of xot is_element: the node exists and is an element node. -/
def Arena.isElem (a : Arena) (n : Nat) : Bool :=
  match a.lookup n with
  | some x =>
    match x.data with
    | .elem _ _ => true
    | .text _ => false
  | none => false

def Arena.childrenOf (a : Arena) (n : Nat) : List Nat :=
  match a.lookup n with
  | some x => x.children
  | none => []

/-- Model of `xot.children(n).filter(is_element)`. -/
def Arena.elemChildren (a : Arena) (n : Nat) : List Nat :=
  (a.childrenOf n).filter (fun c => a.isElem c)

/-- Model of xot get_attribute on an element node. -/
def Arena.getAttr (a : Arena) (n : Nat) (k : String) : Option String :=
  match a.lookup n with
  | some x =>
    match x.data with
    | .elem _ attrs => alookup attrs k
    | .text _ => none
  | none => none

/-- Allocation of a fresh node in the arena. -/
def Arena.alloc (a : Arena) (x : XNode) : Arena × Nat :=
  ({ nodes := a.nodes ++ [(a.next, x)], next := a.next + 1 }, a.next)

/-- Model of xot new_element: allocate a fresh element node with no
attributes and no children. -/
def Arena.newElement (a : Arena) (nm : String) : Arena × Nat :=
  a.alloc ⟨.elem nm [], []⟩

def setNodeAttr (x : XNode) (k v : String) : XNode :=
  match x.data with
  | .elem nm attrs => ⟨.elem nm (aset attrs k v), x.children⟩
  | .text _ => x

/-- Model of xot set_attribute (the program only calls it on freshly created
element nodes). -/
def Arena.setAttr (a : Arena) (n : Nat) (k v : String) : Arena :=
  { a with nodes := a.nodes.map (fun p => if p.1 = n then (p.1, setNodeAttr p.2 k v) else p) }

/-- Model of xot append: add `child` as last child of `parent`; fails when
the parent node does not exist. -/
def Arena.append (a : Arena) (parent child : Nat) : Option Arena :=
  match a.lookup parent with
  | none => none
  | some _ =>
    some { a with
      nodes := a.nodes.map
        (fun p => if p.1 = parent then (p.1, ⟨p.2.data, p.2.children ++ [child]⟩) else p) }

mutual

/-- Model of parsing a recorded serialized form against the target tree's
node factory (xot parse / parse_fragment followed by document_element): the
snapshot subtree is materialised as fresh nodes of the arena and the root of
the fresh copy is returned. -/
def graft (a : Arena) : XTree → Arena × Nat
  | .elem nm attrs cs =>
    let r := graftList a cs
    r.1.alloc ⟨.elem nm attrs, r.2⟩
  | .text s =>
    a.alloc ⟨.text s, []⟩

def graftList (a : Arena) : List XTree → Arena × List Nat
  | [] => (a, [])
  | t :: ts =>
    let r := graft a t
    let r2 := graftList r.1 ts
    (r2.1, r.2 :: r2.2)

end

/-- FolderInfo from src/main.rs: one folder level, id and display name. -/
structure FolderInfo where
  id : String
  name : String
deriving DecidableEq

/-- ElementInfo from src/main.rs; `xml_string` is the recorded serialized
form, modelled as the subtree it parses back to. -/
structure ElementInfo where
  id : String
  name : String
  xml_string : XTree
  folder_path : List FolderInfo

/-- MissingElementInfo from src/main.rs (one Diff Engine record). -/
structure MissingElementInfo where
  id : String
  name : String
  folder_path : List FolderInfo

/-- ArchiModel from src/main.rs: the owned arena, the document root node,
and the two id-keyed indexes.  The association lists' order stands for the
HashMap iteration order. -/
structure ArchiModel where
  arena : Arena
  root : Nat
  view_map : List (String × ElementInfo)
  element_map : List (String × ElementInfo)

/-- find_missing_views from src/main.rs, as a function of the two view maps:
one record per source view id absent from the target view map, emitted in
iteration order of the source map. -/
def findMissingViews : List (String × ElementInfo) → List (String × ElementInfo) →
    List MissingElementInfo
  | [], _ => []
  | p :: rest, targetViews =>
    if keyMem targetViews p.1 then findMissingViews rest targetViews
    else ⟨p.2.id, p.2.name, p.2.folder_path⟩ :: findMissingViews rest targetViews

/-- Category tag to display name table from find_or_create_folder. -/
def folderTypeName (folderType : String) : String :=
  match folderType with
  | "business" => "Business"
  | "application" => "Application"
  | "technology" => "Technology & Physical"
  | "strategy" => "Strategy"
  | "motivation" => "Motivation"
  | "implementation_migration" => "Implementation & Migration"
  | "relations" => "Relations"
  | "diagrams" => "Views"
  | _ => "Other"

/-- The search predicate of find_or_create_folder: an element node named
folder whose type attribute equals the category tag. -/
def folderTypeMatch (a : Arena) (n : Nat) (folderType : String) : Bool :=
  match a.lookup n with
  | some x =>
    match x.data with
    | .elem nm attrs => nm = "folder" && alookup attrs "type" = some folderType
    | .text _ => false
  | none => false

/-- find_or_create_folder from src/main.rs.  The uuid the program generates
for a created category folder is modelled as the string of the fresh arena
id (no claim depends on its value, only on freshness). -/
def findOrCreateFolder (m : ArchiModel) (folderType : String) : Option (ArchiModel × Nat) :=
  match m.arena.lookup m.root with
  | none => none
  | some rootNode =>
    match rootNode.children.head? with
    | none => none
    | some rootElem =>
      match (m.arena.elemChildren rootElem).find? (fun n => folderTypeMatch m.arena n folderType) with
      | some found => some (m, found)
      | none =>
        let r := m.arena.newElement "folder"
        let a2 := r.1.setAttr r.2 "type" folderType
        let a3 := a2.setAttr r.2 "id" ("id-" ++ Nat.repr r.2)
        let a4 := a3.setAttr r.2 "name" (folderTypeName folderType)
        match a4.append rootElem r.2 with
        | none => none
        | some a5 => some ({ m with arena := a5 }, r.2)

/-- The search predicate of recursive_find_or_create_folder_path: an element
node named folder whose name attribute equals the path segment's name. -/
def folderNameMatch (a : Arena) (n : Nat) (folderName : String) : Bool :=
  match a.lookup n with
  | some x =>
    match x.data with
    | .elem nm attrs => nm = "folder" && alookup attrs "name" = some folderName
    | .text _ => false
  | none => false

/-- The per-segment loop of recursive_find_or_create_folder_path: find the
first folder child matching the segment name, else create it (reusing the
source folder id verbatim) and descend. -/
def goPath (m : ArchiModel) (current : Nat) : List FolderInfo → Option (ArchiModel × Nat)
  | [] => some (m, current)
  | fi :: rest =>
    match (m.arena.elemChildren current).find? (fun n => folderNameMatch m.arena n fi.name) with
    | some found => goPath m found rest
    | none =>
      let r := m.arena.newElement "folder"
      let a2 := r.1.setAttr r.2 "name" fi.name
      let a3 := a2.setAttr r.2 "id" fi.id
      match a3.append current r.2 with
      | none => none
      | some a4 => goPath { m with arena := a4 } r.2 rest

/-- recursive_find_or_create_folder_path from src/main.rs. -/
def recursiveFindOrCreateFolderPath (m : ArchiModel) (folder_path : List FolderInfo) :
    Option (ArchiModel × Nat) :=
  match folder_path with
  | [] => findOrCreateFolder m "diagrams"
  | _ :: _ =>
    match m.arena.lookup m.root with
    | none => none
    | some rootNode =>
      match rootNode.children.head? with
      | none => none
      | some start => goPath m start folder_path

/-- HashSet insert, determinised as first-occurrence order. -/
def insertOnce {α : Type} [DecidableEq α] (l : List α) (x : α) : List α :=
  if x ∈ l then l else l ++ [x]

mutual

/-- The extract_references walker nested in copy_view, run over the snapshot
of the view's serialized form (the parsed fragment is a fresh isomorphic
copy of that snapshot): collect archimateElement and archimateRelationship
attribute values into the two reference sets. -/
def extractReferences : XTree → List String × List String → List String × List String
  | .text _, acc => acc
  | .elem _ attrs cs, acc =>
    let acc1 :=
      match alookup attrs "archimateElement" with
      | some r => (insertOnce acc.1 r, acc.2)
      | none => acc
    let acc2 :=
      match alookup attrs "archimateRelationship" with
      | some r => (acc1.1, insertOnce acc1.2 r)
      | none => acc1
    extractReferencesList cs acc2

def extractReferencesList : List XTree → List String × List String → List String × List String
  | [], acc => acc
  | t :: ts, acc => extractReferencesList ts (extractReferences t acc)

end

/-- insert_new_element from src/main.rs: an id absent from the source
element map is silently skipped; otherwise the recorded form is cloned into
the resolved folder and the target element index updated. -/
def insertNewElement (source target : ArchiModel) (element_id : String) : Option ArchiModel :=
  match alookup source.element_map element_id with
  | none => some target
  | some info =>
    match recursiveFindOrCreateFolderPath target info.folder_path with
    | none => none
    | some tf =>
      let r := graft tf.1.arena info.xml_string
      match r.1.append tf.2 r.2 with
      | none => none
      | some a2 =>
        some { tf.1 with arena := a2, element_map := aset tf.1.element_map element_id info }

/-- insert_new_view from src/main.rs, transcribed verbatim: note that it
inserts the view's ElementInfo into the target's element_map, not its
view_map. -/
def insertNewView (source target : ArchiModel) (element_id : String) : Option ArchiModel :=
  match alookup source.view_map element_id with
  | none => some target
  | some info =>
    match recursiveFindOrCreateFolderPath target info.folder_path with
    | none => none
    | some tf =>
      let r := graft tf.1.arena info.xml_string
      match r.1.append tf.2 r.2 with
      | none => none
      | some a2 =>
        some { tf.1 with arena := a2, element_map := aset tf.1.element_map element_id info }

/-- The reference sets copy_view extracts for a view id (empty when the id
is not a source view). -/
def viewReferences (source : ArchiModel) (viewId : String) : List String × List String :=
  match alookup source.view_map viewId with
  | none => ([], [])
  | some info => extractReferences info.xml_string ([], [])

/-- The filter step of copy_view: referenced ids absent from the target's
element index (regardless of whether the source knows them). -/
def newElementIds (target : ArchiModel) (refs : List String) : List String :=
  refs.filter (fun id => !(keyMem target.element_map id))

/-- The insertion loop of copy_view over a list of referenced ids. -/
def insertAllNewElements (source : ArchiModel) : ArchiModel → List String → Option ArchiModel
  | target, [] => some target
  | target, id :: ids =>
    match insertNewElement source target id with
    | none => none
    | some t1 => insertAllNewElements source t1 ids

/-- copy_view from src/main.rs: parse the view's serialized form as a
detached fragment of the target arena, extract the referenced element and
relationship ids, filter both sets against the target element index, insert
the new ones (elements first, then relationships), insert the view itself,
and return (1, new element count, new relation count). -/
def copyView (source target : ArchiModel) (view : MissingElementInfo) :
    Option (ArchiModel × Nat × Nat × Nat) :=
  match alookup source.view_map view.id with
  | none => none
  | some source_info =>
    let r := graft target.arena source_info.xml_string
    let t0 : ArchiModel := { target with arena := r.1 }
    let refs := extractReferences source_info.xml_string ([], [])
    let new_elements := newElementIds target refs.1
    let new_relations := newElementIds target refs.2
    match insertAllNewElements source t0 new_elements with
    | none => none
    | some t1 =>
      match insertAllNewElements source t1 new_relations with
      | none => none
      | some t2 =>
        match insertNewView source t2 view.id with
        | none => none
        | some t3 => some (t3, 1, new_elements.length, new_relations.length)

/-- Rust str::split on a separator character, over the character list. -/
def splitOnChar (sep : Char) : List Char → List (List Char)
  | [] => [[]]
  | c :: cs =>
    if c = sep then [] :: splitOnChar sep cs
    else
      match splitOnChar sep cs with
      | [] => [[c]]
      | a :: rest => (c :: a) :: rest

/-- Rust str::trim, over the character list. -/
def trimChars (s : List Char) : List Char :=
  ((s.dropWhile Char.isWhitespace).reverse.dropWhile Char.isWhitespace).reverse

/-- Rust str::parse::<usize>: an optional leading plus sign followed by at
least one decimal digit (overflow is not modelled; the selection numbers in
play are small). -/
def parseUsize (s : List Char) : Option Nat :=
  let t := match s with
    | c :: rest => if c = '+' then rest else s
    | [] => s
  if t.isEmpty then none
  else if t.all Char.isDigit then
    some (t.foldl (fun acc c => acc * 10 + (c.toNat - 48)) 0)
  else none

/-- The comma-part loop of parse_selection: `selected` models the HashSet in
first-insertion order.  A dash part that does not split into exactly two
pieces is silently skipped, as in the source.  Error messages are elided
(the claims only observe that an error is returned). -/
def processParts (maxCount : Nat) : List (List Char) → List Nat → Except Unit (List Nat)
  | [], selected => Except.ok selected
  | p :: ps, selected =>
    let part := trimChars p
    if part.isEmpty then processParts maxCount ps selected
    else if part.any (fun c => c = '-') then
      match splitOnChar '-' part with
      | [r0, r1] =>
        match parseUsize (trimChars r0), parseUsize (trimChars r1) with
        | some a, some b =>
          if a > b || a == 0 || b > maxCount then Except.error ()
          else processParts maxCount ps (List.foldl insertOnce selected (List.range' a (b + 1 - a)))
        | some _, none => Except.error ()
        | none, _ => Except.error ()
      | _ => processParts maxCount ps selected
    else
      match parseUsize part with
      | some num =>
        if num == 0 || num > maxCount then Except.error ()
        else processParts maxCount ps (insertOnce selected num)
      | none => Except.error ()

/-- parse_selection from src/main.rs: `all` selects every candidate, else
the comma-separated parts (single numbers and inclusive ranges) are
collected into a set and returned sorted ascending. -/
def parseSelection (input : List Char) (maxCount : Nat) : Except Unit (List Nat) :=
  if (trimChars input).map Char.toLower = "all".data then Except.ok (List.range' 1 maxCount)
  else
    match processParts maxCount (splitOnChar ',' input) [] with
    | Except.error e => Except.error e
    | Except.ok selected => Except.ok (List.insertionSort (fun a b => a ≤ b) selected)

/-! Concrete sample models used by the concrete theorems and witnesses. -/

/-- An empty arena, used for source models whose tree is never consulted. -/
def emptyArena : Arena := ⟨[], 0⟩

/-- A minimal target arena: document root (node 0), model element (node 1),
and one diagrams folder named Views (node 2). -/
def viewsFolderArena : Arena :=
  ⟨[(0, ⟨.elem "document" [], [1]⟩),
    (1, ⟨.elem "archimate:model" [], [2]⟩),
    (2, ⟨.elem "folder" [("type", "diagrams"), ("name", "Views"), ("id", "fv")], []⟩)], 3⟩

/-- A target model with the minimal arena and empty indexes. -/
def sampleTarget : ArchiModel := ⟨viewsFolderArena, 0, [], []⟩

def v1Info : ElementInfo :=
  ⟨"v1", "View One",
    .elem "element" [("xsi:type", "archimate:ArchimateDiagramModel"), ("id", "v1")] [], []⟩

def c1src : ArchiModel := ⟨emptyArena, 0, [("v1", v1Info)], []⟩

/-- A source view whose subtree references an element id the source element
index does not know. -/
def ghostViewInfo : ElementInfo :=
  ⟨"v1", "Ghost View",
    .elem "element" [("id", "v1")] [.elem "child" [("archimateElement", "ghost")] []], []⟩

def c2src : ArchiModel := ⟨emptyArena, 0, [("v1", ghostViewInfo)], []⟩

def c2view : MissingElementInfo := ⟨"v1", "Ghost View", []⟩

/-- A source view whose subtree references one element id and one
relationship id, neither known to the source element index. -/
def c9ViewInfo : ElementInfo :=
  ⟨"v1", "C9 View",
    .elem "element" [("id", "v1")]
      [.elem "child" [("archimateElement", "ghost")] [],
       .elem "conn" [("archimateRelationship", "ghostrel")] []], []⟩

def c9src : ArchiModel := ⟨emptyArena, 0, [("v1", c9ViewInfo)], []⟩

def c9view : MissingElementInfo := ⟨"v1", "C9 View", []⟩

def c9res : ArchiModel := ((copyView c9src sampleTarget c9view).map Prod.fst).getD sampleTarget

def e1Info : ElementInfo := ⟨"e1", "Server", .elem "element" [("id", "e1")] [], []⟩

def w2ViewInfo : ElementInfo :=
  ⟨"v1", "Good View",
    .elem "element" [("id", "v1")] [.elem "child" [("archimateElement", "e1")] []], []⟩

def w2src : ArchiModel := ⟨emptyArena, 0, [("v1", w2ViewInfo)], [("e1", e1Info)]⟩

def w2view : MissingElementInfo := ⟨"v1", "Good View", []⟩

def w2res : ArchiModel := ((copyView w2src sampleTarget w2view).map Prod.fst).getD sampleTarget

def aInfo : ElementInfo := ⟨"a", "View A", .elem "element" [("id", "a")] [], []⟩

def bInfo : ElementInfo := ⟨"b", "View B", .elem "element" [("id", "b")] [], []⟩

def c4AB : List (String × ElementInfo) := [("a", aInfo), ("b", bInfo)]

def c4BA : List (String × ElementInfo) := [("b", bInfo), ("a", aInfo)]

/-- A target element entry whose id collides with a source view id. -/
def oldSharedInfo : ElementInfo := ⟨"shared", "old", .elem "element" [("id", "shared")] [], []⟩

def viewSharedInfo : ElementInfo :=
  ⟨"shared", "viewish", .elem "element" [("id", "shared")] [], []⟩

def c5src : ArchiModel := ⟨emptyArena, 0, [("shared", viewSharedInfo)], []⟩

def c5tgt : ArchiModel := ⟨viewsFolderArena, 0, [], [("shared", oldSharedInfo)]⟩

def c5view : MissingElementInfo := ⟨"shared", "viewish", []⟩

def c5res : ArchiModel := ((copyView c5src c5tgt c5view).map Prod.fst).getD c5tgt

def keepInfo : ElementInfo := ⟨"keep", "Keep", .elem "element" [("id", "keep")] [], []⟩

def w5ViewInfo : ElementInfo :=
  ⟨"v1", "W5 View",
    .elem "element" [("id", "v1")] [.elem "child" [("archimateElement", "keep")] []], []⟩

def w5src : ArchiModel := ⟨emptyArena, 0, [("v1", w5ViewInfo)], []⟩

def w5tgt : ArchiModel := ⟨viewsFolderArena, 0, [], [("keep", keepInfo)]⟩

def w5view : MissingElementInfo := ⟨"v1", "W5 View", []⟩

def w5res : ArchiModel := ((copyView w5src w5tgt w5view).map Prod.fst).getD w5tgt

/-- A one-view source view map for the Diff Engine witness. -/
def w3src : List (String × ElementInfo) := [("a", aInfo)]

/-- A two-level folder path absent from the sample target. -/
def c6path : List FolderInfo := [⟨"fp1", "Private"⟩, ⟨"fp2", "Sub"⟩]

/-- The model produced by resolving that path once against the sample
target. -/
def c6res : ArchiModel :=
  ((recursiveFindOrCreateFolderPath sampleTarget c6path).map Prod.fst).getD sampleTarget

/-- Well-formedness of an arena: every stored id, and every stored child id,
is below the fresh-id counter.  True of every arena xot actually builds, and
preserved by all the operations modelled here. -/
def WFArena (a : Arena) : Prop :=
  (∀ p ∈ a.nodes, p.1 < a.next) ∧ (∀ p ∈ a.nodes, ∀ c ∈ p.2.children, c < a.next)

instance (a : Arena) : Decidable (WFArena a) := by
  unfold WFArena
  infer_instance

/-- Evolution of an arena by the merge engine: the fresh-id counter only
grows, every existing node keeps its payload and may only gain children at
the end, and ids unallocated (below the counter) stay unallocated. -/
def Evolves (a a' : Arena) : Prop :=
  a.next ≤ a'.next ∧
  (∀ n x, a.lookup n = some x →
    ∃ x', a'.lookup n = some x' ∧ x'.data = x.data ∧ ∃ t, x.children ++ t = x'.children) ∧
  (∀ n, n < a.next → a.lookup n = none → a'.lookup n = none)

/-- Decimal digit character. -/
def digitChar (d : Nat) : Char := Char.ofNat (48 + d)

/-- Decimal representation of a positive number as a character list. -/
def natRepr (k : Nat) : List Char := ((Nat.digits 10 k).reverse).map digitChar

/-! Theorems. -/

theorem alookup_aset_self {κ α : Type} [DecidableEq κ] (m : List (κ × α)) (k : κ) (v : α) :
    alookup (aset m k v) k = some v := by
  induction m with
  | nil => simp [aset, alookup]
  | cons p rest ih => by_cases h : p.1 = k <;> simp [aset, alookup, h, ih]

theorem alookup_aset_ne {κ α : Type} [DecidableEq κ] (m : List (κ × α)) (k k' : κ) (v : α)
    (h : k' ≠ k) : alookup (aset m k v) k' = alookup m k' := by
  induction m with
  | nil => simp [aset, alookup, Ne.symm h]
  | cons p rest ih =>
    obtain ⟨a, b⟩ := p
    by_cases h1 : a = k
    · subst h1
      simp [aset, alookup, Ne.symm h, h, ih]
    · by_cases h2 : a = k' <;> simp [aset, alookup, h1, h2, ih, h]

theorem keyMem_aset {κ α : Type} [DecidableEq κ] (m : List (κ × α)) (k k' : κ) (v : α)
    (h : keyMem m k' = true) : keyMem (aset m k v) k' = true := by
  by_cases hk : k' = k
  · subst hk; simp [keyMem, alookup_aset_self]
  · simpa [keyMem, alookup_aset_ne m k k' v hk] using h

theorem alookup_append_some {κ α : Type} [DecidableEq κ] {xs : List (κ × α)} (ys : List (κ × α))
    {k : κ} {v : α} (h : alookup xs k = some v) : alookup (xs ++ ys) k = some v := by
  induction xs with
  | nil => simp [alookup] at h
  | cons p rest ih =>
    by_cases h1 : p.1 = k <;> simp_all [alookup, h1]

theorem alookup_append_none {κ α : Type} [DecidableEq κ] {xs : List (κ × α)} (ys : List (κ × α))
    {k : κ} (h : alookup xs k = none) : alookup (xs ++ ys) k = alookup ys k := by
  induction xs with
  | nil => simp [alookup]
  | cons p rest ih =>
    by_cases h1 : p.1 = k <;> simp_all [alookup, h1]

theorem alookup_some_mem {κ α : Type} [DecidableEq κ] {m : List (κ × α)} {k : κ} {v : α}
    (h : alookup m k = some v) : (k, v) ∈ m := by
  induction m with
  | nil => simp [alookup] at h
  | cons p rest ih =>
    cases p with
    | mk a b =>
      by_cases h1 : a = k
      · subst h1
        simp [alookup] at h
        simp [h]
      · simp [alookup, h1] at h
        exact List.mem_cons_of_mem _ (ih h)

theorem alookup_map_ite {κ α : Type} [DecidableEq κ] (m : List (κ × α)) (tgt : κ) (g : α → α)
    (k : κ) :
    alookup (m.map (fun p => if p.1 = tgt then (p.1, g p.2) else p)) k =
      if k = tgt then (alookup m k).map g else alookup m k := by
  induction m with
  | nil => by_cases h : k = tgt <;> simp [alookup, h]
  | cons p rest ih =>
    obtain ⟨a, b⟩ := p
    by_cases h1 : a = tgt <;> by_cases h2 : a = k
    · subst h1; subst h2
      simp [alookup]
    · subst h1
      have hk : ¬ k = a := fun hh => h2 hh.symm
      simp [alookup, h2, ih, hk]
    · subst h2
      have hk : ¬ a = tgt := h1
      simp [alookup, h1, hk]
    · simp [alookup, h1, h2, ih]

theorem keyMem_cons {κ α : Type} [DecidableEq κ] (p : κ × α) (m : List (κ × α)) (k : κ) :
    keyMem (p :: m) k = ((p.1 = k) || keyMem m k) := by
  by_cases h : p.1 = k <;> simp [keyMem, alookup, h]

theorem keyMem_true_mem_keys {κ α : Type} [DecidableEq κ] {m : List (κ × α)} {k : κ}
    (h : keyMem m k = true) : k ∈ m.map Prod.fst := by
  obtain ⟨v, hv⟩ := Option.isSome_iff_exists.mp h
  exact List.mem_map.mpr ⟨(k, v), alookup_some_mem hv, rfl⟩

theorem goPath_maps (path : List FolderInfo) :
    ∀ (m : ArchiModel) (c : Nat) (m' : ArchiModel) (f : Nat),
      goPath m c path = some (m', f) →
      m'.view_map = m.view_map ∧ m'.element_map = m.element_map ∧ m'.root = m.root := by
  induction path with
  | nil =>
    intro m c m' f h
    simp only [goPath, Option.some.injEq, Prod.mk.injEq] at h
    obtain ⟨h1, _⟩ := h
    subst h1
    exact ⟨rfl, rfl, rfl⟩
  | cons fi rest ih =>
    intro m c m' f h
    simp only [goPath] at h
    split at h
    · exact ih _ _ _ _ h
    · split at h
      · simp at h
      · have := ih _ _ _ _ h
        simpa using this

theorem findOrCreateFolder_maps (m : ArchiModel) (ft : String) (m' : ArchiModel) (f : Nat)
    (h : findOrCreateFolder m ft = some (m', f)) :
    m'.view_map = m.view_map ∧ m'.element_map = m.element_map ∧ m'.root = m.root := by
  simp only [findOrCreateFolder] at h
  split at h
  · simp at h
  · split at h
    · simp at h
    · split at h
      · simp only [Option.some.injEq, Prod.mk.injEq] at h
        obtain ⟨h1, _⟩ := h
        subst h1
        exact ⟨rfl, rfl, rfl⟩
      · split at h
        · simp at h
        · simp only [Option.some.injEq, Prod.mk.injEq] at h
          obtain ⟨h1, _⟩ := h
          subst h1
          exact ⟨rfl, rfl, rfl⟩

theorem recursiveFindOrCreateFolderPath_maps (m : ArchiModel) (path : List FolderInfo)
    (m' : ArchiModel) (f : Nat) (h : recursiveFindOrCreateFolderPath m path = some (m', f)) :
    m'.view_map = m.view_map ∧ m'.element_map = m.element_map ∧ m'.root = m.root := by
  cases path with
  | nil => exact findOrCreateFolder_maps m "diagrams" m' f h
  | cons fi rest =>
    simp only [recursiveFindOrCreateFolderPath] at h
    split at h
    · simp at h
    · split at h
      · simp at h
      · exact goPath_maps _ _ _ _ _ h

theorem insertNewElement_some (source target t' : ArchiModel) (id : String)
    (h : insertNewElement source target id = some t') :
    t'.view_map = target.view_map ∧ t'.root = target.root ∧
      ((∃ info, alookup source.element_map id = some info ∧
          t'.element_map = aset target.element_map id info) ∨
        (alookup source.element_map id = none ∧ t' = target)) := by
  simp only [insertNewElement] at h
  split at h
  · rename_i hnone
    simp only [Option.some.injEq] at h
    subst h
    exact ⟨rfl, rfl, Or.inr ⟨hnone, rfl⟩⟩
  · rename_i info hinfo
    split at h
    · simp at h
    · rename_i tf hrec
      obtain ⟨hv, he, hr⟩ :=
        recursiveFindOrCreateFolderPath_maps target info.folder_path tf.1 tf.2 hrec
      split at h
      · simp at h
      · simp only [Option.some.injEq] at h
        subst h
        exact ⟨hv, hr, Or.inl ⟨info, hinfo, by rw [he]⟩⟩

theorem insertNewView_some (source target t' : ArchiModel) (id : String)
    (h : insertNewView source target id = some t') :
    t'.view_map = target.view_map ∧ t'.root = target.root ∧
      ((∃ info, alookup source.view_map id = some info ∧
          t'.element_map = aset target.element_map id info) ∨
        (alookup source.view_map id = none ∧ t' = target)) := by
  simp only [insertNewView] at h
  split at h
  · rename_i hnone
    simp only [Option.some.injEq] at h
    subst h
    exact ⟨rfl, rfl, Or.inr ⟨hnone, rfl⟩⟩
  · rename_i info hinfo
    split at h
    · simp at h
    · rename_i tf hrec
      obtain ⟨hv, he, hr⟩ :=
        recursiveFindOrCreateFolderPath_maps target info.folder_path tf.1 tf.2 hrec
      split at h
      · simp at h
      · simp only [Option.some.injEq] at h
        subst h
        exact ⟨hv, hr, Or.inl ⟨info, hinfo, by rw [he]⟩⟩

theorem insertAllNewElements_maps (source : ArchiModel) (ids : List String) :
    ∀ (t t' : ArchiModel), insertAllNewElements source t ids = some t' →
      t'.view_map = t.view_map ∧ t'.root = t.root := by
  induction ids with
  | nil =>
    intro t t' h
    simp only [insertAllNewElements, Option.some.injEq] at h
    subst h
    exact ⟨rfl, rfl⟩
  | cons id ids ih =>
    intro t t' h
    simp only [insertAllNewElements] at h
    split at h
    · simp at h
    · rename_i t1 h1
      obtain ⟨hv1, hr1, _⟩ := insertNewElement_some source t t1 id h1
      obtain ⟨hv2, hr2⟩ := ih t1 t' h
      exact ⟨hv2.trans hv1, hr2.trans hr1⟩

theorem insertAllNewElements_lookup_not_mem (source : ArchiModel) (ids : List String) :
    ∀ (t t' : ArchiModel) (k : String), insertAllNewElements source t ids = some t' →
      k ∉ ids → alookup t'.element_map k = alookup t.element_map k := by
  induction ids with
  | nil =>
    intro t t' k h _
    simp only [insertAllNewElements, Option.some.injEq] at h
    subst h
    rfl
  | cons id ids ih =>
    intro t t' k h hk
    simp only [insertAllNewElements] at h
    split at h
    · simp at h
    · rename_i t1 h1
      have hkne : k ≠ id := fun hh => hk (hh ▸ List.mem_cons_self id ids)
      have hkids : k ∉ ids := fun hh => hk (List.mem_cons_of_mem id hh)
      obtain ⟨_, _, hmap⟩ := insertNewElement_some source t t1 id h1
      have h2 := ih t1 t' k h hkids
      rcases hmap with ⟨info, _, hset⟩ | ⟨_, heq⟩
      · rw [h2, hset, alookup_aset_ne _ _ _ _ hkne]
      · rw [h2, heq]

theorem insertAllNewElements_keyMem_mono (source : ArchiModel) (ids : List String) :
    ∀ (t t' : ArchiModel) (k : String), insertAllNewElements source t ids = some t' →
      keyMem t.element_map k = true → keyMem t'.element_map k = true := by
  induction ids with
  | nil =>
    intro t t' k h hk
    simp only [insertAllNewElements, Option.some.injEq] at h
    subst h
    exact hk
  | cons id ids ih =>
    intro t t' k h hk
    simp only [insertAllNewElements] at h
    split at h
    · simp at h
    · rename_i t1 h1
      obtain ⟨_, _, hmap⟩ := insertNewElement_some source t t1 id h1
      apply ih t1 t' k h
      rcases hmap with ⟨info, _, hset⟩ | ⟨_, heq⟩
      · rw [hset]; exact keyMem_aset _ _ _ _ hk
      · rw [heq]; exact hk

theorem insertAllNewElements_inserts (source : ArchiModel) (ids : List String) :
    ∀ (t t' : ArchiModel) (k : String), insertAllNewElements source t ids = some t' →
      k ∈ ids → keyMem source.element_map k = true → keyMem t'.element_map k = true := by
  induction ids with
  | nil =>
    intro t t' k _ hk _
    simp at hk
  | cons id ids ih =>
    intro t t' k h hk hsrc
    simp only [insertAllNewElements] at h
    split at h
    · simp at h
    · rename_i t1 h1
      rcases List.mem_cons.mp hk with hkeq | hkmem
      · subst hkeq
        obtain ⟨_, _, hmap⟩ := insertNewElement_some source t t1 k h1
        rcases hmap with ⟨info, _, hset⟩ | ⟨hnone, _⟩
        · apply insertAllNewElements_keyMem_mono source ids t1 t' k h
          rw [hset]
          simp [keyMem, alookup_aset_self]
        · rw [keyMem, hnone] at hsrc
          simp at hsrc
      · exact ih t1 t' k h hkmem hsrc

theorem insertNewView_keyMem_mono (source t t' : ArchiModel) (vid k : String)
    (h : insertNewView source t vid = some t') (hk : keyMem t.element_map k = true) :
    keyMem t'.element_map k = true := by
  obtain ⟨_, _, hmap⟩ := insertNewView_some source t t' vid h
  rcases hmap with ⟨info, _, hset⟩ | ⟨_, heq⟩
  · rw [hset]; exact keyMem_aset _ _ _ _ hk
  · rw [heq]; exact hk

theorem copyView_inv (source target : ArchiModel) (view : MissingElementInfo)
    (t' : ArchiModel) (c1 c2 c3 : Nat)
    (h : copyView source target view = some (t', c1, c2, c3)) :
    ∃ info t1 t2,
      alookup source.view_map view.id = some info ∧
      insertAllNewElements source { target with arena := (graft target.arena info.xml_string).1 }
        (newElementIds target (extractReferences info.xml_string ([], [])).1) = some t1 ∧
      insertAllNewElements source t1
        (newElementIds target (extractReferences info.xml_string ([], [])).2) = some t2 ∧
      insertNewView source t2 view.id = some t' ∧
      c1 = 1 ∧
      c2 = (newElementIds target (extractReferences info.xml_string ([], [])).1).length ∧
      c3 = (newElementIds target (extractReferences info.xml_string ([], [])).2).length := by
  simp only [copyView] at h
  split at h
  · simp at h
  · rename_i info hinfo
    split at h
    · simp at h
    · rename_i t1 h1
      split at h
      · simp at h
      · rename_i t2 h2
        split at h
        · simp at h
        · rename_i t3 h3
          simp only [Option.some.injEq, Prod.mk.injEq] at h
          obtain ⟨he, hc1, hc2, hc3⟩ := h
          subst he
          exact ⟨info, t1, t2, hinfo, h1, h2, h3, hc1.symm, hc2.symm, hc3.symm⟩

theorem viewReferences_of_lookup (source : ArchiModel) (vid : String) (info : ElementInfo)
    (h : alookup source.view_map vid = some info) :
    viewReferences source vid = extractReferences info.xml_string ([], []) := by
  simp [viewReferences, h]

/-- C1: running insert_new_view for source view v1 against an empty target
index leaves the target's views index without the view id and instead puts
the view's ElementInfo into the target's elements index — the views index is
never updated, contradicting the claim. -/
theorem insertNewView_updates_element_map_not_view_map :
    (insertNewView c1src sampleTarget "v1").map
      (fun t => (keyMem t.view_map "v1", keyMem t.element_map "v1")) = some (false, true) := by
  decide

/-- C2 counterexample: the Ghost View's subtree references id ghost, which
neither index knows; after copyView succeeds, ghost is still absent from the
target element index, so not every extracted id ends up present. -/
theorem copyView_ghost_skipped :
    "ghost" ∈ (viewReferences c2src c2view.id).1 ∧
    alookup c2src.element_map "ghost" = none ∧
    (copyView c2src sampleTarget c2view).map (fun r => keyMem r.1.element_map "ghost") =
      some false :=
  ⟨by decide, rfl, by decide⟩

/-- C2 (amended): after copyView succeeds, every element or relationship id
extracted from the view's subtree that the source element index knows — or
that was already present in the target element index — is a key of the
target element index. -/
theorem copyView_transitive_complete (source target : ArchiModel) (view : MissingElementInfo)
    (t' : ArchiModel) (c1 c2 c3 : Nat) (id : String)
    (hrun : copyView source target view = some (t', c1, c2, c3))
    (hid : id ∈ (viewReferences source view.id).1 ∨ id ∈ (viewReferences source view.id).2)
    (hknown : keyMem source.element_map id = true ∨ keyMem target.element_map id = true) :
    keyMem t'.element_map id = true := by
  obtain ⟨info, t1, t2, hinfo, h1, h2, h3, _, _, _⟩ :=
    copyView_inv source target view t' c1 c2 c3 hrun
  have hrefs := viewReferences_of_lookup source view.id info hinfo
  rw [hrefs] at hid
  by_cases htgt : keyMem target.element_map id = true
  · have m1 : keyMem t1.element_map id = true :=
      insertAllNewElements_keyMem_mono source _ _ t1 id h1 htgt
    have m2 : keyMem t2.element_map id = true :=
      insertAllNewElements_keyMem_mono source _ _ t2 id h2 m1
    exact insertNewView_keyMem_mono source t2 t' view.id id h3 m2
  · have htgtf : keyMem target.element_map id = false := by
      simpa using htgt
    have hsrc : keyMem source.element_map id = true := by
      rcases hknown with hs | ht
      · exact hs
      · rw [ht] at htgtf; simp at htgtf
    rcases hid with hl | hr
    · have hmem : id ∈ newElementIds target (extractReferences info.xml_string ([], [])).1 := by
        simp [newElementIds, List.mem_filter, hl, htgtf]
      have m1 : keyMem t1.element_map id = true :=
        insertAllNewElements_inserts source _ _ t1 id h1 hmem hsrc
      have m2 : keyMem t2.element_map id = true :=
        insertAllNewElements_keyMem_mono source _ _ t2 id h2 m1
      exact insertNewView_keyMem_mono source t2 t' view.id id h3 m2
    · have hmem : id ∈ newElementIds target (extractReferences info.xml_string ([], [])).2 := by
        simp [newElementIds, List.mem_filter, hr, htgtf]
      have m2 : keyMem t2.element_map id = true :=
        insertAllNewElements_inserts source _ _ t2 id h2 hmem hsrc
      exact insertNewView_keyMem_mono source t2 t' view.id id h3 m2

/-- C2 witness: the Good View references element e1, which the source
element index knows; after the merge e1 is a key of the target element
index. -/
theorem copyView_transitive_complete_witness :
    copyView w2src sampleTarget w2view = some (w2res, 1, 1, 0) ∧
    "e1" ∈ (viewReferences w2src w2view.id).1 ∧
    keyMem w2src.element_map "e1" = true ∧
    keyMem w2res.element_map "e1" = true := by
  refine ⟨rfl, by decide, by decide, ?_⟩
  exact copyView_transitive_complete w2src sampleTarget w2view w2res 1 1 0 "e1" rfl
    (Or.inl (by decide)) (Or.inl (by decide))

/-- C3: the Diff Engine's output has one record for each view id in the
source views index that is absent from the target views index, no record for
any other id, and no duplicate ids (under the indexer invariants that source
keys are unique and each entry's id equals its key). -/
theorem findMissingViews_exact (sv : List (String × ElementInfo)) :
    ∀ tv : List (String × ElementInfo),
      (sv.map Prod.fst).Nodup →
      (∀ p ∈ sv, p.2.id = p.1) →
      ((∀ id : String,
          (∃ r ∈ findMissingViews sv tv, r.id = id) ↔
            (keyMem sv id = true ∧ keyMem tv id = false)) ∧
        ((findMissingViews sv tv).map MissingElementInfo.id).Nodup) := by
  induction sv with
  | nil =>
    intro tv _ _
    constructor
    · intro id
      simp [findMissingViews, keyMem, alookup]
    · simp [findMissingViews]
  | cons p rest ih =>
    intro tv hkeys hids
    obtain ⟨a, info⟩ := p
    have hida : info.id = a := hids (a, info) (List.mem_cons_self _ _)
    have hkeys2 : (rest.map Prod.fst).Nodup := (List.nodup_cons.mp hkeys).2
    have hanotin : a ∉ rest.map Prod.fst := (List.nodup_cons.mp hkeys).1
    have hids2 : ∀ q ∈ rest, q.2.id = q.1 := fun q hq => hids q (List.mem_cons_of_mem _ hq)
    obtain ⟨ihiff, ihnodup⟩ := ih tv hkeys2 hids2
    by_cases htv : keyMem tv a = true
    · constructor
      · intro id
        rw [show findMissingViews ((a, info) :: rest) tv = findMissingViews rest tv by
          simp [findMissingViews, htv]]
        rw [ihiff id, keyMem_cons]
        by_cases hid : a = id
        · subst hid
          simp [htv]
        · simp [hid]
      · rw [show findMissingViews ((a, info) :: rest) tv = findMissingViews rest tv by
          simp [findMissingViews, htv]]
        exact ihnodup
    · have htvf : keyMem tv a = false := by simpa using htv
      have hexpand : findMissingViews ((a, info) :: rest) tv =
          ⟨info.id, info.name, info.folder_path⟩ :: findMissingViews rest tv := by
        simp [findMissingViews, htvf]
      constructor
      · intro id
        rw [hexpand, keyMem_cons]
        by_cases hid : a = id
        · subst hid
          constructor
          · intro _
            exact ⟨by simp, htvf⟩
          · intro _
            exact ⟨⟨info.id, info.name, info.folder_path⟩, List.mem_cons_self _ _, hida⟩
        · constructor
          · rintro ⟨r, hr, hrid⟩
            rcases List.mem_cons.mp hr with hrh | hrt
            · exfalso
              apply hid
              rw [hrh] at hrid
              rw [← hida]
              exact hrid
            · have hres := (ihiff id).mp ⟨r, hrt, hrid⟩
              exact ⟨by simp [hid, hres.1], hres.2⟩
          · intro ⟨hor, htvid⟩
            have hmem2 : keyMem rest id = true := by
              simpa [hid] using hor
            obtain ⟨r, hr, hrid⟩ := (ihiff id).mpr ⟨hmem2, htvid⟩
            exact ⟨r, List.mem_cons_of_mem _ hr, hrid⟩
      · rw [hexpand]
        simp only [List.map_cons, List.nodup_cons]
        refine ⟨?_, ihnodup⟩
        intro hmem
        obtain ⟨r, hr, hrid⟩ := List.mem_map.mp hmem
        have := (ihiff info.id).mp ⟨r, hr, hrid⟩
        rw [hida] at this
        exact absurd (keyMem_true_mem_keys this.1) hanotin

/-- C3 witness: a one-view source and empty target. -/
theorem findMissingViews_exact_witness :
    (∀ id : String,
      (∃ r ∈ findMissingViews w3src [], r.id = id) ↔
        (keyMem w3src id = true ∧ keyMem ([] : List (String × ElementInfo)) id = false)) ∧
    ((findMissingViews w3src []).map MissingElementInfo.id).Nodup :=
  findMissingViews_exact w3src [] (by decide) (by decide)

/-- C4: the Diff Engine emits records in the iteration order of the source
view map (a Rust HashMap whose iteration order varies from run to run): the
same map presented in two iteration orders yields the two outputs in
different orders, so the emitted order is not reproducible across runs and
is not sorted by identifier. -/
theorem findMissingViews_order_not_reproducible :
    c4BA.Perm c4AB ∧
    (findMissingViews c4AB []).map MissingElementInfo.id = ["a", "b"] ∧
    (findMissingViews c4BA []).map MissingElementInfo.id = ["b", "a"] ∧
    (findMissingViews c4BA []).map MissingElementInfo.id ≠
      (findMissingViews c4AB []).map MissingElementInfo.id := by
  refine ⟨?_, by decide, by decide, by decide⟩
  simp only [c4BA, c4AB]
  exact List.Perm.swap _ _ _

/-- C5 counterexample: target already has shared as an element-index key
(named old); the source has a view with the same id.  copyView inserts the
cloned view node (node 4, carrying id attribute shared, appended under
folder 2) and overwrites the element-index entry for shared with the view's
ElementInfo (named viewish). -/
theorem copyView_overwrites_preexisting_shared_id :
    keyMem c5tgt.element_map "shared" = true ∧
    (alookup c5tgt.element_map "shared").map (fun i => i.name) = some "old" ∧
    (copyView c5src c5tgt c5view).map
      (fun r => (alookup r.1.element_map "shared").map (fun i => i.name)) =
      some (some "viewish") ∧
    c5res.arena.getAttr 4 "id" = some "shared" ∧
    c5res.arena.childrenOf 2 = [4] ∧
    c5tgt.arena.lookup 4 = none := by
  decide

/-- C5 (amended): for every id that is a key of the target element index
before the merge and differs from the merged view's own id, copyView keeps
the index entry unchanged and the id is in neither insertion set; the
exclusion of the view's own id is forced by the counterexample, where the
view node is inserted and the entry overwritten. -/
theorem copyView_no_reinsert (source target : ArchiModel) (view : MissingElementInfo)
    (t' : ArchiModel) (c1 c2 c3 : Nat) (id : String)
    (hrun : copyView source target view = some (t', c1, c2, c3))
    (hpre : keyMem target.element_map id = true)
    (hne : id ≠ view.id) :
    alookup t'.element_map id = alookup target.element_map id ∧
    id ∉ newElementIds target (viewReferences source view.id).1 ∧
    id ∉ newElementIds target (viewReferences source view.id).2 := by
  have hnotin1 : id ∉ newElementIds target (viewReferences source view.id).1 := by
    intro hmem
    have := (List.mem_filter.mp hmem).2
    rw [hpre] at this
    simp at this
  have hnotin2 : id ∉ newElementIds target (viewReferences source view.id).2 := by
    intro hmem
    have := (List.mem_filter.mp hmem).2
    rw [hpre] at this
    simp at this
  obtain ⟨info, t1, t2, hinfo, h1, h2, h3, _, _, _⟩ :=
    copyView_inv source target view t' c1 c2 c3 hrun
  have hrefs := viewReferences_of_lookup source view.id info hinfo
  refine ⟨?_, hnotin1, hnotin2⟩
  have hn1 : id ∉ newElementIds target (extractReferences info.xml_string ([], [])).1 := by
    rw [← hrefs]
    exact hnotin1
  have hn2 : id ∉ newElementIds target (extractReferences info.xml_string ([], [])).2 := by
    rw [← hrefs]
    exact hnotin2
  have e1 := insertAllNewElements_lookup_not_mem source _ _ t1 id h1 hn1
  have e2 := insertAllNewElements_lookup_not_mem source _ t1 t2 id h2 hn2
  obtain ⟨_, _, hmap⟩ := insertNewView_some source t2 t' view.id h3
  rcases hmap with ⟨info2, _, hset⟩ | ⟨_, heq⟩
  · rw [hset, alookup_aset_ne _ _ _ _ hne, e2, e1]
  · rw [heq, e2, e1]

/-- C5 witness: target already knows element keep; merging the W5 view,
which references keep, leaves the entry untouched and keep in neither
insertion set. -/
theorem copyView_no_reinsert_witness :
    copyView w5src w5tgt w5view = some (w5res, 1, 0, 0) ∧
    keyMem w5tgt.element_map "keep" = true ∧
    (alookup w5res.element_map "keep" = alookup w5tgt.element_map "keep" ∧
      "keep" ∉ newElementIds w5tgt (viewReferences w5src w5view.id).1 ∧
      "keep" ∉ newElementIds w5tgt (viewReferences w5src w5view.id).2) := by
  refine ⟨rfl, by decide, ?_⟩
  exact copyView_no_reinsert w5src w5tgt w5view w5res 1 0 0 "keep" rfl (by decide) (by decide)

/-- C9: an id referenced by the view — whether through an archimateElement
or an archimateRelationship attribute — but absent from the source element
index is silently skipped: insert_new_element returns Ok and leaves the
target model (tree and indexes) unchanged.  Yet copy_view still counts it:
whenever the id is also absent from the target index, it is a member of the
corresponding filtered insertion list, and the returned new-element and
new-relation counts are exactly the lengths of those two lists (which are
filtered against the target index only, never against the source). -/
theorem insertNewElement_missing_source_skipped (source target : ArchiModel)
    (view : MissingElementInfo) (t' : ArchiModel) (c1 c2 c3 : Nat) (id : String)
    (habsent : alookup source.element_map id = none)
    (hrun : copyView source target view = some (t', c1, c2, c3))
    (htgt : keyMem target.element_map id = false) :
    insertNewElement source target id = some target ∧
    (id ∈ (viewReferences source view.id).1 →
      id ∈ newElementIds target (viewReferences source view.id).1) ∧
    (id ∈ (viewReferences source view.id).2 →
      id ∈ newElementIds target (viewReferences source view.id).2) ∧
    c2 = (newElementIds target (viewReferences source view.id).1).length ∧
    c3 = (newElementIds target (viewReferences source view.id).2).length := by
  obtain ⟨info, t1, t2, hinfo, _, _, _, _, hc2, hc3⟩ :=
    copyView_inv source target view t' c1 c2 c3 hrun
  have hrefs := viewReferences_of_lookup source view.id info hinfo
  refine ⟨by simp [insertNewElement, habsent], ?_, ?_, ?_, ?_⟩
  · intro hext
    simp [newElementIds, List.mem_filter, hext, htgt]
  · intro hext
    simp [newElementIds, List.mem_filter, hext, htgt]
  · rw [hrefs]
    exact hc2
  · rw [hrefs]
    exact hc3

theorem evolves_refl (a : Arena) : Evolves a a :=
  ⟨le_refl _, fun _ x h => ⟨x, h, rfl, [], List.append_nil _⟩, fun _ _ h => h⟩

theorem evolves_trans {a b c : Arena} (h1 : Evolves a b) (h2 : Evolves b c) : Evolves a c := by
  obtain ⟨hn1, hs1, hd1⟩ := h1
  obtain ⟨hn2, hs2, hd2⟩ := h2
  refine ⟨hn1.trans hn2, ?_, ?_⟩
  · intro n x hx
    obtain ⟨x1, hx1, hdata1, t1, hch1⟩ := hs1 n x hx
    obtain ⟨x2, hx2, hdata2, t2, hch2⟩ := hs2 n x1 hx1
    exact ⟨x2, hx2, hdata2.trans hdata1, t1 ++ t2, by rw [← hch2, ← hch1, List.append_assoc]⟩
  · intro n hn hx
    exact hd2 n (lt_of_lt_of_le hn hn1) (hd1 n hn hx)

theorem lookup_some_lt {a : Arena} (hwf : WFArena a) {n : Nat} {x : XNode}
    (h : a.lookup n = some x) : n < a.next :=
  hwf.1 (n, x) (alookup_some_mem h)

theorem lookup_next_none {a : Arena} (hwf : WFArena a) : a.lookup a.next = none := by
  cases h : a.lookup a.next with
  | none => rfl
  | some x => exact absurd (lookup_some_lt hwf h) (lt_irrefl _)

theorem alloc_lookup {a : Arena} (hwf : WFArena a) (x : XNode) (k : Nat) :
    (a.alloc x).1.lookup k = if k = a.next then some x else a.lookup k := by
  by_cases hk : k = a.next
  · subst hk
    show alookup (a.nodes ++ [(a.next, x)]) a.next = _
    rw [alookup_append_none _ (lookup_next_none hwf)]
    simp [alookup]
  · show alookup (a.nodes ++ [(a.next, x)]) k = _
    rw [if_neg hk]
    cases h : alookup a.nodes k with
    | some v => exact (alookup_append_some _ h).trans h.symm
    | none =>
      rw [alookup_append_none _ h]
      simp only [alookup]
      rw [if_neg (fun hh : a.next = k => hk hh.symm)]
      exact h.symm

theorem alloc_evolves {a : Arena} (hwf : WFArena a) (x : XNode) : Evolves a (a.alloc x).1 := by
  refine ⟨Nat.le_succ _, ?_, ?_⟩
  · intro n y hy
    have hne : n ≠ a.next := fun hh => by
      rw [hh, lookup_next_none hwf] at hy
      cases hy
    rw [alloc_lookup hwf, if_neg hne]
    exact ⟨y, hy, rfl, [], List.append_nil _⟩
  · intro n hn hy
    have hne : n ≠ a.next := Nat.ne_of_lt hn
    rw [alloc_lookup hwf, if_neg hne]
    exact hy

theorem alloc_wf {a : Arena} (hwf : WFArena a) {x : XNode}
    (hch : ∀ c ∈ x.children, c < a.next) : WFArena (a.alloc x).1 := by
  constructor
  · intro p hp
    rcases List.mem_append.mp hp with h | h
    · exact lt_trans (hwf.1 p h) (Nat.lt_succ_self _)
    · simp only [List.mem_singleton] at h
      subst h
      exact Nat.lt_succ_self _
  · intro p hp c hc
    rcases List.mem_append.mp hp with h | h
    · exact lt_trans (hwf.2 p h c hc) (Nat.lt_succ_self _)
    · simp only [List.mem_singleton] at h
      subst h
      exact lt_trans (hch c hc) (Nat.lt_succ_self _)

theorem alloc_snd (a : Arena) (x : XNode) : (a.alloc x).2 = a.next := rfl

theorem setAttr_lookup (a : Arena) (n : Nat) (k v : String) (m : Nat) :
    (a.setAttr n k v).lookup m =
      if m = n then (a.lookup m).map (fun x => setNodeAttr x k v) else a.lookup m :=
  alookup_map_ite a.nodes n (fun x => setNodeAttr x k v) m

theorem setNodeAttr_children (x : XNode) (k v : String) :
    (setNodeAttr x k v).children = x.children := by
  cases x with
  | mk d ch => cases d <;> rfl

theorem setAttr_wf {a : Arena} (hwf : WFArena a) (n : Nat) (k v : String) :
    WFArena (a.setAttr n k v) := by
  constructor
  · intro p hp
    obtain ⟨q, hq, hpq⟩ := List.mem_map.mp hp
    by_cases hb : q.1 = n
    · rw [if_pos hb] at hpq
      rw [← hpq]
      exact hwf.1 q hq
    · rw [if_neg hb] at hpq
      rw [← hpq]
      exact hwf.1 q hq
  · intro p hp c hc
    obtain ⟨q, hq, hpq⟩ := List.mem_map.mp hp
    by_cases hb : q.1 = n
    · rw [if_pos hb] at hpq
      rw [← hpq] at hc
      simp only [setNodeAttr_children] at hc
      exact hwf.2 q hq c hc
    · rw [if_neg hb] at hpq
      rw [← hpq] at hc
      exact hwf.2 q hq c hc

theorem setAttr_evolves_fresh {b a : Arena} (hwf : WFArena b) (hev : Evolves b a)
    {n : Nat} (hn : b.next ≤ n) (k v : String) : Evolves b (a.setAttr n k v) := by
  obtain ⟨h1, h2, h3⟩ := hev
  refine ⟨h1, ?_, ?_⟩
  · intro m x hx
    have hm : m < b.next := lookup_some_lt hwf hx
    have hmn : m ≠ n := by omega
    rw [setAttr_lookup, if_neg hmn]
    exact h2 m x hx
  · intro m hm hx
    have hmn : m ≠ n := by omega
    rw [setAttr_lookup, if_neg hmn]
    exact h3 m hm hx

theorem append_inv {a a' : Arena} {p c : Nat} (h : a.append p c = some a') :
    (∃ x, a.lookup p = some x) ∧
    a'.next = a.next ∧
    ∀ m, a'.lookup m =
      if m = p then (a.lookup m).map (fun x => ⟨x.data, x.children ++ [c]⟩) else a.lookup m := by
  unfold Arena.append at h
  split at h
  · simp at h
  · rename_i x hx
    simp only [Option.some.injEq] at h
    subst h
    refine ⟨⟨x, hx⟩, rfl, fun m => ?_⟩
    show alookup (a.nodes.map
      (fun q => if q.1 = p then (q.1, ⟨q.2.data, q.2.children ++ [c]⟩) else q)) m = _
    exact alookup_map_ite a.nodes p (fun y => ⟨y.data, y.children ++ [c]⟩) m

theorem append_evolves {a a' : Arena} {p c : Nat} (h : a.append p c = some a') : Evolves a a' := by
  obtain ⟨_, hnext, hlook⟩ := append_inv h
  refine ⟨le_of_eq hnext.symm, ?_, ?_⟩
  · intro n x hx
    rw [hlook n]
    by_cases hn : n = p
    · rw [if_pos hn, hx]
      exact ⟨⟨x.data, x.children ++ [c]⟩, rfl, rfl, [c], rfl⟩
    · rw [if_neg hn]
      exact ⟨x, hx, rfl, [], List.append_nil _⟩
  · intro n hn hx
    rw [hlook n]
    by_cases hnp : n = p
    · subst hnp
      rw [if_pos rfl, hx]
      rfl
    · rw [if_neg hnp]
      exact hx

theorem append_wf {a a' : Arena} {p c : Nat} (hwf : WFArena a) (hc : c < a.next)
    (h : a.append p c = some a') : WFArena a' := by
  unfold Arena.append at h
  split at h
  · simp at h
  · simp only [Option.some.injEq] at h
    subst h
    constructor
    · intro q hq
      obtain ⟨r, hr, hrq⟩ := List.mem_map.mp hq
      by_cases hb : r.1 = p
      · rw [if_pos hb] at hrq
        rw [← hrq]
        exact hwf.1 r hr
      · rw [if_neg hb] at hrq
        rw [← hrq]
        exact hwf.1 r hr
    · intro q hq d hd
      obtain ⟨r, hr, hrq⟩ := List.mem_map.mp hq
      by_cases hb : r.1 = p
      · rw [if_pos hb] at hrq
        rw [← hrq] at hd
        simp only at hd
        rcases List.mem_append.mp hd with hd | hd
        · exact hwf.2 r hr d hd
        · simp only [List.mem_singleton] at hd
          subst hd
          exact hc
      · rw [if_neg hb] at hrq
        rw [← hrq] at hd
        exact hwf.2 r hr d hd

theorem graft_spec (t : XTree) :
    ∀ a : Arena, WFArena a →
      Evolves a (graft a t).1 ∧ WFArena (graft a t).1 ∧
        a.next ≤ (graft a t).2 ∧ (graft a t).2 < (graft a t).1.next := by
  refine @XTree.rec
    (fun t => ∀ a : Arena, WFArena a →
      Evolves a (graft a t).1 ∧ WFArena (graft a t).1 ∧
        a.next ≤ (graft a t).2 ∧ (graft a t).2 < (graft a t).1.next)
    (fun ts => ∀ a : Arena, WFArena a →
      Evolves a (graftList a ts).1 ∧ WFArena (graftList a ts).1 ∧
        a.next ≤ (graftList a ts).1.next ∧
        ∀ i ∈ (graftList a ts).2, i < (graftList a ts).1.next)
    ?_ ?_ ?_ ?_ t
  · intro nm attrs cs ih a hwf
    obtain ⟨hev, hwf1, hle, hids⟩ := ih a hwf
    simp only [graft]
    refine ⟨evolves_trans hev (alloc_evolves hwf1 _), alloc_wf hwf1 hids, ?_, ?_⟩
    · rw [alloc_snd]
      exact hle
    · rw [alloc_snd]
      exact Nat.lt_succ_self _
  · intro s a hwf
    simp only [graft]
    refine ⟨alloc_evolves hwf _, alloc_wf hwf ?_, ?_, ?_⟩
    · intro c hc
      simp at hc
    · rw [alloc_snd]
    · rw [alloc_snd]
      exact Nat.lt_succ_self _
  · intro a hwf
    simp only [graftList]
    exact ⟨evolves_refl a, hwf, le_refl _, fun i hi => by simp at hi⟩
  · intro t ts iht ihts a hwf
    obtain ⟨hev1, hwf1, hle1, hlt1⟩ := iht a hwf
    obtain ⟨hev2, hwf2, hle2, hids2⟩ := ihts (graft a t).1 hwf1
    simp only [graftList]
    refine ⟨evolves_trans hev1 hev2, hwf2, hev1.1.trans hle2, ?_⟩
    intro i hi
    rcases List.mem_cons.mp hi with hi | hi
    · subst hi
      exact lt_of_lt_of_le hlt1 hle2
    · exact hids2 i hi

theorem findOrCreateFolder_evolves {m : ArchiModel} {ft : String} {m' : ArchiModel} {f : Nat}
    (hwf : WFArena m.arena) (h : findOrCreateFolder m ft = some (m', f)) :
    Evolves m.arena m'.arena ∧ WFArena m'.arena := by
  simp only [findOrCreateFolder] at h
  split at h
  · simp at h
  · split at h
    · simp at h
    · rename_i rootElem hhead
      split at h
      · simp only [Option.some.injEq, Prod.mk.injEq] at h
        obtain ⟨h1, _⟩ := h
        subst h1
        exact ⟨evolves_refl _, hwf⟩
      · split at h
        · simp at h
        · rename_i a5 happ
          simp only [Option.some.injEq, Prod.mk.injEq] at h
          obtain ⟨h1, _⟩ := h
          subst h1
          have hev1 : Evolves m.arena (m.arena.newElement "folder").1 := alloc_evolves hwf _
          have hwf1 : WFArena (m.arena.newElement "folder").1 :=
            alloc_wf hwf (by intro c hc; simp at hc)
          have hev2 := setAttr_evolves_fresh hwf hev1 (le_refl m.arena.next) "type" ft
          have hwf2 := setAttr_wf hwf1 (m.arena.newElement "folder").2 "type" ft
          have hev3 := setAttr_evolves_fresh hwf hev2 (le_refl m.arena.next) "id"
            ("id-" ++ Nat.repr (m.arena.newElement "folder").2)
          have hwf3 := setAttr_wf hwf2 (m.arena.newElement "folder").2 "id"
            ("id-" ++ Nat.repr (m.arena.newElement "folder").2)
          have hev4 := setAttr_evolves_fresh hwf hev3 (le_refl m.arena.next) "name"
            (folderTypeName ft)
          have hwf4 := setAttr_wf hwf3 (m.arena.newElement "folder").2 "name"
            (folderTypeName ft)
          refine ⟨evolves_trans hev4 (append_evolves happ), append_wf hwf4 ?_ happ⟩
          exact Nat.lt_succ_self _

theorem goPath_evolves (path : List FolderInfo) :
    ∀ (m : ArchiModel) (c : Nat) (m' : ArchiModel) (f : Nat), WFArena m.arena →
      goPath m c path = some (m', f) →
      Evolves m.arena m'.arena ∧ WFArena m'.arena := by
  induction path with
  | nil =>
    intro m c m' f hwf h
    simp only [goPath, Option.some.injEq, Prod.mk.injEq] at h
    obtain ⟨h1, _⟩ := h
    subst h1
    exact ⟨evolves_refl _, hwf⟩
  | cons fi rest ih =>
    intro m c m' f hwf h
    simp only [goPath] at h
    split at h
    · exact ih _ _ _ _ hwf h
    · split at h
      · simp at h
      · rename_i a4 happ
        have hev1 : Evolves m.arena (m.arena.newElement "folder").1 := alloc_evolves hwf _
        have hwf1 : WFArena (m.arena.newElement "folder").1 :=
          alloc_wf hwf (by intro c hc; simp at hc)
        have hev2 := setAttr_evolves_fresh hwf hev1 (le_refl m.arena.next) "name" fi.name
        have hwf2 := setAttr_wf hwf1 (m.arena.newElement "folder").2 "name" fi.name
        have hev3 := setAttr_evolves_fresh hwf hev2 (le_refl m.arena.next) "id" fi.id
        have hwf3 := setAttr_wf hwf2 (m.arena.newElement "folder").2 "id" fi.id
        have hev4 : Evolves m.arena a4 := evolves_trans hev3 (append_evolves happ)
        have hwf4 : WFArena a4 := append_wf hwf3 (Nat.lt_succ_self _) happ
        obtain ⟨hev5, hwf5⟩ := ih _ _ _ _ hwf4 h
        exact ⟨evolves_trans hev4 hev5, hwf5⟩

theorem recursiveFindOrCreateFolderPath_evolves {m : ArchiModel} {path : List FolderInfo}
    {m' : ArchiModel} {f : Nat} (hwf : WFArena m.arena)
    (h : recursiveFindOrCreateFolderPath m path = some (m', f)) :
    Evolves m.arena m'.arena ∧ WFArena m'.arena := by
  cases path with
  | nil => exact findOrCreateFolder_evolves hwf h
  | cons fi rest =>
    simp only [recursiveFindOrCreateFolderPath] at h
    split at h
    · simp at h
    · split at h
      · simp at h
      · exact goPath_evolves _ _ _ _ _ hwf h

theorem insertNewElement_evolves {source target t1 : ArchiModel} {id : String}
    (hwf : WFArena target.arena) (h : insertNewElement source target id = some t1) :
    Evolves target.arena t1.arena ∧ WFArena t1.arena := by
  simp only [insertNewElement] at h
  split at h
  · simp only [Option.some.injEq] at h
    subst h
    exact ⟨evolves_refl _, hwf⟩
  · rename_i info hinfo
    split at h
    · simp at h
    · rename_i tf hrec
      obtain ⟨hev1, hwf1⟩ := recursiveFindOrCreateFolderPath_evolves hwf hrec
      obtain ⟨hev2, hwf2, hle2, hlt2⟩ := graft_spec info.xml_string tf.1.arena hwf1
      split at h
      · simp at h
      · rename_i a2 happ
        simp only [Option.some.injEq] at h
        subst h
        exact ⟨evolves_trans hev1 (evolves_trans hev2 (append_evolves happ)),
          append_wf hwf2 hlt2 happ⟩

theorem insertNewView_evolves {source target t1 : ArchiModel} {id : String}
    (hwf : WFArena target.arena) (h : insertNewView source target id = some t1) :
    Evolves target.arena t1.arena ∧ WFArena t1.arena := by
  simp only [insertNewView] at h
  split at h
  · simp only [Option.some.injEq] at h
    subst h
    exact ⟨evolves_refl _, hwf⟩
  · rename_i info hinfo
    split at h
    · simp at h
    · rename_i tf hrec
      obtain ⟨hev1, hwf1⟩ := recursiveFindOrCreateFolderPath_evolves hwf hrec
      obtain ⟨hev2, hwf2, hle2, hlt2⟩ := graft_spec info.xml_string tf.1.arena hwf1
      split at h
      · simp at h
      · rename_i a2 happ
        simp only [Option.some.injEq] at h
        subst h
        exact ⟨evolves_trans hev1 (evolves_trans hev2 (append_evolves happ)),
          append_wf hwf2 hlt2 happ⟩

theorem insertAllNewElements_evolves {source : ArchiModel} (ids : List String) :
    ∀ {t t' : ArchiModel}, WFArena t.arena → insertAllNewElements source t ids = some t' →
      Evolves t.arena t'.arena ∧ WFArena t'.arena := by
  induction ids with
  | nil =>
    intro t t' hwf h
    simp only [insertAllNewElements, Option.some.injEq] at h
    subst h
    exact ⟨evolves_refl _, hwf⟩
  | cons id ids ih =>
    intro t t' hwf h
    simp only [insertAllNewElements] at h
    split at h
    · simp at h
    · rename_i t1 h1
      obtain ⟨hev1, hwf1⟩ := insertNewElement_evolves hwf h1
      obtain ⟨hev2, hwf2⟩ := ih hwf1 h
      exact ⟨evolves_trans hev1 hev2, hwf2⟩

theorem copyView_evolves {source target : ArchiModel} {view : MissingElementInfo}
    {t' : ArchiModel} {c1 c2 c3 : Nat} (hwf : WFArena target.arena)
    (hrun : copyView source target view = some (t', c1, c2, c3)) :
    Evolves target.arena t'.arena ∧ WFArena t'.arena := by
  obtain ⟨info, t1, t2, hinfo, h1, h2, h3, _, _, _⟩ :=
    copyView_inv source target view t' c1 c2 c3 hrun
  obtain ⟨hev0, hwf0, _, _⟩ := graft_spec info.xml_string target.arena hwf
  obtain ⟨hev1, hwf1⟩ := insertAllNewElements_evolves _ hwf0 h1
  obtain ⟨hev2, hwf2⟩ := insertAllNewElements_evolves _ hwf1 h2
  obtain ⟨hev3, hwf3⟩ := insertNewView_evolves hwf2 h3
  exact ⟨evolves_trans hev0 (evolves_trans hev1 (evolves_trans hev2 hev3)), hwf3⟩

/-- C7: every node present in the target tree before a successful copyView
run is still present afterwards, with its payload (element name, attributes,
text) unchanged and its original child list as a prefix of the new one:
the merge performs node insertions only, never deletion or modification of
pre-existing nodes. -/
theorem copyView_preserves_preexisting_nodes (source target : ArchiModel)
    (view : MissingElementInfo) (t' : ArchiModel) (c1 c2 c3 : Nat)
    (hwf : WFArena target.arena)
    (hrun : copyView source target view = some (t', c1, c2, c3)) :
    ∀ n x, target.arena.lookup n = some x →
      ∃ x', t'.arena.lookup n = some x' ∧ x'.data = x.data ∧
        ∃ tl, x.children ++ tl = x'.children :=
  (copyView_evolves hwf hrun).1.2.1

/-- C7 witness: the Good View merge against the sample target. -/
theorem copyView_preserves_preexisting_nodes_witness :
    WFArena sampleTarget.arena ∧
    copyView w2src sampleTarget w2view = some (w2res, 1, 1, 0) ∧
    (∀ n x, sampleTarget.arena.lookup n = some x →
      ∃ x', w2res.arena.lookup n = some x' ∧ x'.data = x.data ∧
        ∃ tl, x.children ++ tl = x'.children) :=
  ⟨by decide, rfl,
    copyView_preserves_preexisting_nodes w2src sampleTarget w2view w2res 1 1 0 (by decide) rfl⟩

theorem find?_congr_list {α : Type} (xs : List α) (p q : α → Bool)
    (h : ∀ e ∈ xs, p e = q e) : xs.find? p = xs.find? q := by
  induction xs with
  | nil => rfl
  | cons e rest ih =>
    have he := h e (List.mem_cons_self _ _)
    by_cases hq : q e = true
    · rw [List.find?_cons_of_pos _ (he ▸ hq), List.find?_cons_of_pos _ hq]
    · have hp : ¬ p e = true := by rw [he]; exact hq
      rw [List.find?_cons_of_neg _ hp, List.find?_cons_of_neg _ hq]
      exact ih (fun d hd => h d (List.mem_cons_of_mem _ hd))

theorem find?_append_left_none {α : Type} {xs : List α} (ys : List α) {p : α → Bool}
    (h : ∀ e ∈ xs, ¬ p e = true) : (xs ++ ys).find? p = ys.find? p := by
  rw [List.find?_append, List.find?_eq_none.mpr h]
  rfl

theorem isElem_preserved {a a' : Arena} (hev : Evolves a a') {n : Nat} (hn : n < a.next) :
    a'.isElem n = a.isElem n := by
  cases h : a.lookup n with
  | none =>
    simp only [Arena.isElem, h, hev.2.2 n hn h]
  | some x =>
    obtain ⟨x', hx', hdata, _⟩ := hev.2.1 n x h
    simp only [Arena.isElem, h, hx', hdata]

theorem folderNameMatch_preserved {a a' : Arena} (hev : Evolves a a') {n : Nat}
    (hn : n < a.next) (nm : String) : folderNameMatch a' n nm = folderNameMatch a n nm := by
  cases h : a.lookup n with
  | none =>
    simp only [folderNameMatch, h, hev.2.2 n hn h]
  | some x =>
    obtain ⟨x', hx', hdata, _⟩ := hev.2.1 n x h
    simp only [folderNameMatch, h, hx', hdata]

theorem folderTypeMatch_preserved {a a' : Arena} (hev : Evolves a a') {n : Nat}
    (hn : n < a.next) (ft : String) : folderTypeMatch a' n ft = folderTypeMatch a n ft := by
  cases h : a.lookup n with
  | none =>
    simp only [folderTypeMatch, h, hev.2.2 n hn h]
  | some x =>
    obtain ⟨x', hx', hdata, _⟩ := hev.2.1 n x h
    simp only [folderTypeMatch, h, hx', hdata]

theorem children_mem_lt {a : Arena} (hwf : WFArena a) {c : Nat} {x : XNode}
    (hc : a.lookup c = some x) {e : Nat} (he : e ∈ x.children) : e < a.next :=
  hwf.2 (c, x) (alookup_some_mem hc) e he

theorem elemChildren_of_lookup (a : Arena) {c : Nat} {x : XNode} (hc : a.lookup c = some x) :
    a.elemChildren c = x.children.filter (fun e => a.isElem e) := by
  simp only [Arena.elemChildren, Arena.childrenOf, hc]

theorem elemChildren_extends {a a' : Arena} (hwf : WFArena a) (hev : Evolves a a')
    {c : Nat} {x : XNode} (hc : a.lookup c = some x) :
    ∃ tl, a'.elemChildren c = a.elemChildren c ++ tl := by
  obtain ⟨x', hx', _, t, hch⟩ := hev.2.1 c x hc
  refine ⟨t.filter (fun e => a'.isElem e), ?_⟩
  rw [elemChildren_of_lookup a hc, elemChildren_of_lookup a' hx', ← hch, List.filter_append]
  congr 1
  exact List.filter_congr
    (fun e he => by rw [isElem_preserved hev (children_mem_lt hwf hc he)])

theorem createFolder_lookup {a : Arena} (hwf : WFArena a) (k1 v1 k2 v2 : String) (c : Nat)
    (hcne : c ≠ a.next) :
    (((a.newElement "folder").1.setAttr (a.newElement "folder").2 k1 v1).setAttr
      (a.newElement "folder").2 k2 v2).lookup c = a.lookup c := by
  simp only [Arena.newElement, alloc_snd]
  rw [setAttr_lookup, if_neg hcne, setAttr_lookup, if_neg hcne, alloc_lookup hwf, if_neg hcne]

theorem createFolder_lookup_self {a : Arena} (hwf : WFArena a) (k1 v1 k2 v2 : String) :
    (((a.newElement "folder").1.setAttr (a.newElement "folder").2 k1 v1).setAttr
      (a.newElement "folder").2 k2 v2).lookup (a.newElement "folder").2 =
      some ⟨.elem "folder" (aset (aset [] k1 v1) k2 v2), []⟩ := by
  simp only [Arena.newElement, alloc_snd]
  rw [setAttr_lookup, if_pos rfl, setAttr_lookup, if_pos rfl, alloc_lookup hwf, if_pos rfl]
  rfl

theorem goPath_retrace (path : List FolderInfo) :
    ∀ (m : ArchiModel) (c : Nat) (m' : ArchiModel) (f : Nat), WFArena m.arena →
      c < m.arena.next → goPath m c path = some (m', f) → goPath m' c path = some (m', f) := by
  induction path with
  | nil =>
    intro m c m' f _ _ h
    simp only [goPath, Option.some.injEq, Prod.mk.injEq] at h
    obtain ⟨h1, h2⟩ := h
    subst h1
    subst h2
    rfl
  | cons fi rest ih =>
    intro m c m' f hwf hc h
    simp only [goPath] at h
    split at h
    · rename_i found hfound
      have hcx : ∃ x, m.arena.lookup c = some x := by
        cases hx : m.arena.lookup c with
        | some x => exact ⟨x, rfl⟩
        | none =>
          rw [show m.arena.elemChildren c = [] by
            simp [Arena.elemChildren, Arena.childrenOf, hx]] at hfound
          simp at hfound
      obtain ⟨x, hx⟩ := hcx
      have hfound_mem : found ∈ m.arena.elemChildren c := List.mem_of_find?_eq_some hfound
      have hfound_lt : found < m.arena.next := by
        have h2 := hfound_mem
        rw [elemChildren_of_lookup m.arena hx] at h2
        exact children_mem_lt hwf hx (List.mem_of_mem_filter h2)
      have hev : Evolves m.arena m'.arena := (goPath_evolves rest m found m' f hwf h).1
      obtain ⟨tl, hext⟩ := elemChildren_extends hwf hev hx
      have hlt_mem : ∀ e ∈ m.arena.elemChildren c, e < m.arena.next := by
        intro e he
        rw [elemChildren_of_lookup m.arena hx] at he
        exact children_mem_lt hwf hx (List.mem_of_mem_filter he)
      have hfind : (m'.arena.elemChildren c).find?
          (fun n => folderNameMatch m'.arena n fi.name) = some found := by
        rw [hext, List.find?_append]
        have hpre : (m.arena.elemChildren c).find?
            (fun n => folderNameMatch m'.arena n fi.name) = some found := by
          rw [find?_congr_list _ _ (fun n => folderNameMatch m.arena n fi.name)
            (fun e he => folderNameMatch_preserved hev (hlt_mem e he) fi.name)]
          exact hfound
        rw [hpre]
        rfl
      simp only [goPath, hfind]
      exact ih m found m' f hwf hfound_lt h
    · rename_i hnotfound
      split at h
      · simp at h
      · rename_i a4 happ
        obtain ⟨⟨y, hy3⟩, hnext4, hlook4⟩ := append_inv happ
        have hcne : c ≠ m.arena.next := Nat.ne_of_lt hc
        have hy_m : m.arena.lookup c = some y := by
          rw [createFolder_lookup hwf "name" fi.name "id" fi.id c hcne] at hy3
          exact hy3
        have ha4c : a4.lookup c =
            some ⟨y.data, y.children ++ [(m.arena.newElement "folder").2]⟩ := by
          rw [hlook4 c, if_pos rfl, hy3]
          rfl
        have hnfc : (m.arena.newElement "folder").2 ≠ c := Ne.symm hcne
        have ha4nf : a4.lookup (m.arena.newElement "folder").2 =
            some ⟨.elem "folder" (aset (aset [] "name" fi.name) "id" fi.id), []⟩ := by
          rw [hlook4 _, if_neg hnfc, createFolder_lookup_self hwf "name" fi.name "id" fi.id]
        have hwf1 : WFArena (m.arena.newElement "folder").1 :=
          alloc_wf hwf (by intro d hd; simp at hd)
        have hwf2 := setAttr_wf hwf1 (m.arena.newElement "folder").2 "name" fi.name
        have hwf3 := setAttr_wf hwf2 (m.arena.newElement "folder").2 "id" fi.id
        have hwf4 : WFArena a4 := append_wf hwf3 (Nat.lt_succ_self _) happ
        have hev1 : Evolves m.arena (m.arena.newElement "folder").1 := alloc_evolves hwf _
        have hev2 := setAttr_evolves_fresh hwf hev1 (le_refl m.arena.next) "name" fi.name
        have hev3 := setAttr_evolves_fresh hwf hev2 (le_refl m.arena.next) "id" fi.id
        have hevm4 : Evolves m.arena a4 := evolves_trans hev3 (append_evolves happ)
        have hev4 : Evolves a4 m'.arena := (goPath_evolves rest _ _ m' f hwf4 h).1
        have hevm : Evolves m.arena m'.arena := evolves_trans hevm4 hev4
        obtain ⟨x', hx', hdata', t, hch⟩ := hev4.2.1 c _ ha4c
        obtain ⟨nf', hnf', hnfdata, _⟩ := hev4.2.1 _ _ ha4nf
        have hlt_mem : ∀ e ∈ m.arena.elemChildren c, e < m.arena.next := by
          intro e he
          rw [elemChildren_of_lookup m.arena hy_m] at he
          exact children_mem_lt hwf hy_m (List.mem_of_mem_filter he)
        have hprednf : (fun n => folderNameMatch m'.arena n fi.name)
            (m.arena.newElement "folder").2 = true := by
          show folderNameMatch m'.arena (m.arena.newElement "folder").2 fi.name = true
          simp only [folderNameMatch, hnf', hnfdata]
          rw [alookup_aset_ne _ _ _ _ (by decide), alookup_aset_self]
          simp
        have hiselemnf : m'.arena.isElem (m.arena.newElement "folder").2 = true := by
          simp only [Arena.isElem, hnf', hnfdata]
        have hext : m'.arena.elemChildren c = m.arena.elemChildren c ++
            ((m.arena.newElement "folder").2 :: t.filter (fun e => m'.arena.isElem e)) := by
          rw [elemChildren_of_lookup _ hx', ← hch, elemChildren_of_lookup _ hy_m]
          rw [List.filter_append, List.filter_append]
          rw [List.append_assoc]
          congr 1
          · exact List.filter_congr
              (fun e he => by rw [isElem_preserved hevm (children_mem_lt hwf hy_m he)])
          · rw [show List.filter (fun e => m'.arena.isElem e)
                [(m.arena.newElement "folder").2] = [(m.arena.newElement "folder").2] by
              simp [List.filter, hiselemnf]]
            rfl
        have hfindnone : ∀ e ∈ m.arena.elemChildren c,
            ¬ folderNameMatch m'.arena e fi.name = true := by
          intro e he
          rw [folderNameMatch_preserved hevm (hlt_mem e he) fi.name]
          exact List.find?_eq_none.mp hnotfound e he
        have hfind : (m'.arena.elemChildren c).find?
            (fun n => folderNameMatch m'.arena n fi.name) =
            some (m.arena.newElement "folder").2 := by
          rw [hext, find?_append_left_none _ hfindnone,
            @List.find?_cons_of_pos Nat (fun n => folderNameMatch m'.arena n fi.name)
              (m.arena.newElement "folder").2 (t.filter (fun e => m'.arena.isElem e)) hprednf]
        simp only [goPath, hfind]
        exact ih _ _ m' f hwf4 (by rw [show ({ m with arena := a4 } : ArchiModel).arena.next
          = a4.next from rfl, hnext4]; exact Nat.lt_succ_self _) h

theorem createFolder3_lookup {a : Arena} (hwf : WFArena a) (k1 v1 k2 v2 k3 v3 : String)
    (c : Nat) (hcne : c ≠ a.next) :
    ((((a.newElement "folder").1.setAttr (a.newElement "folder").2 k1 v1).setAttr
      (a.newElement "folder").2 k2 v2).setAttr (a.newElement "folder").2 k3 v3).lookup c =
      a.lookup c := by
  simp only [Arena.newElement, alloc_snd]
  rw [setAttr_lookup, if_neg hcne, setAttr_lookup, if_neg hcne, setAttr_lookup, if_neg hcne,
    alloc_lookup hwf, if_neg hcne]

theorem createFolder3_lookup_self {a : Arena} (hwf : WFArena a) (k1 v1 k2 v2 k3 v3 : String) :
    ((((a.newElement "folder").1.setAttr (a.newElement "folder").2 k1 v1).setAttr
      (a.newElement "folder").2 k2 v2).setAttr (a.newElement "folder").2 k3 v3).lookup
      (a.newElement "folder").2 =
      some ⟨.elem "folder" (aset (aset (aset [] k1 v1) k2 v2) k3 v3), []⟩ := by
  simp only [Arena.newElement, alloc_snd]
  rw [setAttr_lookup, if_pos rfl, setAttr_lookup, if_pos rfl, setAttr_lookup, if_pos rfl,
    alloc_lookup hwf, if_pos rfl]
  rfl

theorem findOrCreateFolder_retrace {m : ArchiModel} {ft : String} {m' : ArchiModel} {f : Nat}
    (hwf : WFArena m.arena) (h : findOrCreateFolder m ft = some (m', f)) :
    findOrCreateFolder m' ft = some (m', f) := by
  have horig := h
  simp only [findOrCreateFolder] at h
  split at h
  · simp at h
  · rename_i rootNode hroot
    split at h
    · simp at h
    · rename_i rootElem hhead
      split at h
      · simp only [Option.some.injEq, Prod.mk.injEq] at h
        obtain ⟨h1, h2⟩ := h
        subst h1
        subst h2
        exact horig
      · rename_i hnotfound
        split at h
        · simp at h
        · rename_i a5 happ
          simp only [Option.some.injEq, Prod.mk.injEq] at h
          obtain ⟨h1, h2⟩ := h
          subst h1
          subst h2
          obtain ⟨⟨y, hy4⟩, hnext5, hlook5⟩ := append_inv happ
          have hrootElem_mem : rootElem ∈ rootNode.children := by
            cases hch : rootNode.children with
            | nil => rw [hch] at hhead; simp at hhead
            | cons a l =>
              rw [hch] at hhead
              simp only [List.head?_cons, Option.some.injEq] at hhead
              rw [hhead]
              exact List.mem_cons_self _ _
          have hrootElem_lt : rootElem < m.arena.next :=
            hwf.2 _ (alookup_some_mem hroot) _ hrootElem_mem
          have hrootElem_ne : rootElem ≠ m.arena.next := Nat.ne_of_lt hrootElem_lt
          have hy_m : m.arena.lookup rootElem = some y := by
            rw [createFolder3_lookup hwf "type" ft "id"
              ("id-" ++ Nat.repr (m.arena.newElement "folder").2) "name" (folderTypeName ft)
              rootElem hrootElem_ne] at hy4
            exact hy4
          have hwf1 : WFArena (m.arena.newElement "folder").1 :=
            alloc_wf hwf (by intro d hd; simp at hd)
          have hwf2 := setAttr_wf hwf1 (m.arena.newElement "folder").2 "type" ft
          have hwf3 := setAttr_wf hwf2 (m.arena.newElement "folder").2 "id"
            ("id-" ++ Nat.repr (m.arena.newElement "folder").2)
          have hwf4 := setAttr_wf hwf3 (m.arena.newElement "folder").2 "name" (folderTypeName ft)
          have hev1 : Evolves m.arena (m.arena.newElement "folder").1 := alloc_evolves hwf _
          have hev2 := setAttr_evolves_fresh hwf hev1 (le_refl m.arena.next) "type" ft
          have hev3 := setAttr_evolves_fresh hwf hev2 (le_refl m.arena.next) "id"
            ("id-" ++ Nat.repr (m.arena.newElement "folder").2)
          have hev4 := setAttr_evolves_fresh hwf hev3 (le_refl m.arena.next) "name"
            (folderTypeName ft)
          have hev : Evolves m.arena a5 := evolves_trans hev4 (append_evolves happ)
          obtain ⟨root5, hroot5, hrootdata, t5, hrootch⟩ := hev.2.1 m.root rootNode hroot
          have hhead5 : root5.children.head? = some rootElem := by
            rw [← hrootch, List.head?_append, hhead]
            rfl
          have ha5re : a5.lookup rootElem =
              some ⟨y.data, y.children ++ [(m.arena.newElement "folder").2]⟩ := by
            rw [hlook5 rootElem, if_pos rfl, hy4]
            rfl
          have hnfre : (m.arena.newElement "folder").2 ≠ rootElem := Ne.symm hrootElem_ne
          have ha5nf : a5.lookup (m.arena.newElement "folder").2 =
              some ⟨.elem "folder" (aset (aset (aset [] "type" ft) "id"
                ("id-" ++ Nat.repr (m.arena.newElement "folder").2)) "name"
                (folderTypeName ft)), []⟩ := by
            rw [hlook5 _, if_neg hnfre, createFolder3_lookup_self hwf]
          have hprednf : (fun n => folderTypeMatch a5 n ft)
              (m.arena.newElement "folder").2 = true := by
            show folderTypeMatch a5 (m.arena.newElement "folder").2 ft = true
            simp only [folderTypeMatch, ha5nf]
            rw [alookup_aset_ne _ _ _ _ (by decide), alookup_aset_ne _ _ _ _ (by decide),
              alookup_aset_self]
            simp
          have hiselemnf : a5.isElem (m.arena.newElement "folder").2 = true := by
            simp only [Arena.isElem, ha5nf]
          have hlt_mem : ∀ e ∈ m.arena.elemChildren rootElem, e < m.arena.next := by
            intro e he
            rw [elemChildren_of_lookup m.arena hy_m] at he
            exact children_mem_lt hwf hy_m (List.mem_of_mem_filter he)
          have hext : a5.elemChildren rootElem =
              m.arena.elemChildren rootElem ++ [(m.arena.newElement "folder").2] := by
            rw [elemChildren_of_lookup _ ha5re, elemChildren_of_lookup _ hy_m]
            rw [List.filter_append]
            congr 1
            · exact List.filter_congr (fun e he => by
                rw [isElem_preserved hev (children_mem_lt hwf hy_m he)])
            · simp [List.filter, hiselemnf]
          have hfindnone : ∀ e ∈ m.arena.elemChildren rootElem,
              ¬ folderTypeMatch a5 e ft = true := by
            intro e he
            rw [folderTypeMatch_preserved hev (hlt_mem e he) ft]
            exact List.find?_eq_none.mp hnotfound e he
          have hfind : (a5.elemChildren rootElem).find? (fun n => folderTypeMatch a5 n ft) =
              some (m.arena.newElement "folder").2 := by
            rw [hext, find?_append_left_none _ hfindnone,
              @List.find?_cons_of_pos Nat (fun n => folderTypeMatch a5 n ft)
                (m.arena.newElement "folder").2 [] hprednf]
          simp only [findOrCreateFolder, hroot5, hhead5, hfind]

/-- C6: running recursive_find_or_create_folder_path a second time with the
same path against the state the first call produced returns the identical
folder node and leaves the model unchanged — no duplicate sibling folders
are ever created. -/
theorem recursiveFindOrCreateFolderPath_idempotent (m : ArchiModel) (path : List FolderInfo)
    (m' : ArchiModel) (f : Nat) (hwf : WFArena m.arena)
    (hrun : recursiveFindOrCreateFolderPath m path = some (m', f)) :
    recursiveFindOrCreateFolderPath m' path = some (m', f) := by
  cases path with
  | nil => exact findOrCreateFolder_retrace hwf hrun
  | cons fi rest =>
    simp only [recursiveFindOrCreateFolderPath] at hrun ⊢
    split at hrun
    · simp at hrun
    · rename_i rootNode hroot
      split at hrun
      · simp at hrun
      · rename_i start hstart
        have hev : Evolves m.arena m'.arena := (goPath_evolves _ _ _ _ _ hwf hrun).1
        have hroots : m'.root = m.root := (goPath_maps _ _ _ _ _ hrun).2.2
        have hstart_mem : start ∈ rootNode.children := by
          cases hch : rootNode.children with
          | nil => rw [hch] at hstart; simp at hstart
          | cons a l =>
            rw [hch] at hstart
            simp only [List.head?_cons, Option.some.injEq] at hstart
            rw [hstart]
            exact List.mem_cons_self _ _
        have hstart_lt : start < m.arena.next :=
          hwf.2 _ (alookup_some_mem hroot) _ hstart_mem
        obtain ⟨root', hroot', hdata', t, hch⟩ := hev.2.1 m.root rootNode hroot
        have hhead' : root'.children.head? = some start := by
          rw [← hch, List.head?_append, hstart]
          rfl
        rw [hroots]
        simp only [hroot', hhead']
        exact goPath_retrace (fi :: rest) m start m' f hwf hstart_lt hrun

/-- C6 witness: resolving the path [Private, Sub] against the sample target
creates the two folders; re-running against the produced state returns the
same node with no further change. -/
theorem recursiveFindOrCreateFolderPath_idempotent_witness :
    WFArena sampleTarget.arena ∧
    recursiveFindOrCreateFolderPath c6res c6path = some (c6res, 4) :=
  ⟨by decide, recursiveFindOrCreateFolderPath_idempotent sampleTarget c6path c6res 4
    (by decide) rfl⟩

/-- C9 witness: the C9 View references the relationship id ghostrel, which
the source element index does not know; ghostrel is skipped, yet it is in
the new-relation list and the returned relation count is that list's
length 1 (the element-side ghost is counted symmetrically in the same
run). -/
theorem insertNewElement_missing_source_skipped_witness :
    copyView c9src sampleTarget c9view = some (c9res, 1, 1, 1) ∧
    (insertNewElement c9src sampleTarget "ghostrel" = some sampleTarget ∧
      ("ghostrel" ∈ (viewReferences c9src c9view.id).1 →
        "ghostrel" ∈ newElementIds sampleTarget (viewReferences c9src c9view.id).1) ∧
      ("ghostrel" ∈ (viewReferences c9src c9view.id).2 →
        "ghostrel" ∈ newElementIds sampleTarget (viewReferences c9src c9view.id).2) ∧
      1 = (newElementIds sampleTarget (viewReferences c9src c9view.id).1).length ∧
      1 = (newElementIds sampleTarget (viewReferences c9src c9view.id).2).length) := by
  refine ⟨rfl, ?_⟩
  exact insertNewElement_missing_source_skipped c9src sampleTarget c9view c9res 1 1 1
    "ghostrel" rfl rfl (by decide)

theorem digitChar_props {d : Nat} (h : d < 10) :
    (digitChar d).isDigit = true ∧ (digitChar d).toNat = 48 + d ∧
      Char.toLower (digitChar d) = digitChar d ∧ (digitChar d).isWhitespace = false ∧
      digitChar d ≠ ',' ∧ digitChar d ≠ '-' ∧ digitChar d ≠ '+' ∧ digitChar d ≠ 'a' := by
  interval_cases d <;> exact ⟨rfl, rfl, rfl, rfl, by decide, by decide, by decide, by decide⟩

theorem natRepr_mem_props {k : Nat} {c : Char} (hc : c ∈ natRepr k) :
    c.isDigit = true ∧ Char.toLower c = c ∧ c.isWhitespace = false ∧
      c ≠ ',' ∧ c ≠ '-' ∧ c ≠ '+' ∧ c ≠ 'a' := by
  obtain ⟨d, hd, hcd⟩ := List.mem_map.mp hc
  have hd10 : d < 10 := Nat.digits_lt_base (by norm_num) (List.mem_reverse.mp hd)
  obtain ⟨p1, _, p3, p4, p5, p6, p7, p8⟩ := digitChar_props hd10
  rw [← hcd]
  exact ⟨p1, p3, p4, p5, p6, p7, p8⟩

theorem natRepr_ne_nil {k : Nat} (hk : 0 < k) : natRepr k ≠ [] := by
  unfold natRepr
  simp only [ne_eq, List.map_eq_nil_iff, List.reverse_eq_nil_iff]
  exact Nat.digits_ne_nil_iff_ne_zero.mpr (Nat.pos_iff_ne_zero.mp hk)

theorem foldl_digits (l : List Nat) (hl : ∀ d ∈ l, d < 10) : ∀ acc : Nat,
    List.foldl (fun a c => a * 10 + (c.toNat - 48)) acc (l.reverse.map digitChar) =
      acc * 10 ^ l.length + Nat.ofDigits 10 l := by
  induction l with
  | nil =>
    intro acc
    simp [Nat.ofDigits]
  | cons d ds ih =>
    intro acc
    rw [List.reverse_cons, List.map_append, List.foldl_append]
    rw [ih (fun e he => hl e (List.mem_cons_of_mem _ he)) acc]
    simp only [List.map_cons, List.map_nil, List.foldl_cons, List.foldl_nil]
    have h48 : (digitChar d).toNat = 48 + d :=
      (digitChar_props (hl d (List.mem_cons_self _ _))).2.1
    rw [h48, Nat.add_sub_cancel_left, Nat.ofDigits_cons, List.length_cons, pow_succ]
    ring

theorem parseUsize_natRepr {k : Nat} (hk : 0 < k) : parseUsize (natRepr k) = some k := by
  cases hrep : natRepr k with
  | nil => exact absurd hrep (natRepr_ne_nil hk)
  | cons c cs =>
    have hcmem : c ∈ natRepr k := by rw [hrep]; exact List.mem_cons_self _ _
    have hcplus : ¬ c = '+' := (natRepr_mem_props hcmem).2.2.2.2.2.1
    have hall : (c :: cs).all Char.isDigit = true := by
      rw [← hrep]
      exact List.all_eq_true.mpr (fun e he => (natRepr_mem_props he).1)
    unfold parseUsize
    dsimp only
    simp only [if_neg hcplus, List.isEmpty_cons, Bool.false_eq_true, if_false, hall, if_true,
      Option.some.injEq]
    rw [← hrep]
    unfold natRepr
    rw [foldl_digits (Nat.digits 10 k)
      (fun d hd => Nat.digits_lt_base (by norm_num) hd) 0]
    simp [Nat.ofDigits_digits]

theorem dropWhile_eq_self_of_all {α : Type} (p : α → Bool) (l : List α)
    (h : ∀ c ∈ l, p c = false) : l.dropWhile p = l := by
  cases l with
  | nil => rfl
  | cons c cs =>
    rw [List.dropWhile_cons, h c (List.mem_cons_self _ _)]
    simp

theorem trimChars_id (s : List Char) (h : ∀ c ∈ s, c.isWhitespace = false) : trimChars s = s := by
  unfold trimChars
  rw [dropWhile_eq_self_of_all _ _ h]
  rw [dropWhile_eq_self_of_all _ _ (fun c hc => h c (List.mem_reverse.mp hc))]
  exact List.reverse_reverse s

theorem splitOnChar_not_mem {sep : Char} {s : List Char} (h : sep ∉ s) :
    splitOnChar sep s = [s] := by
  induction s with
  | nil => rfl
  | cons c cs ih =>
    have hc : ¬ c = sep := fun hh => h (hh ▸ List.mem_cons_self _ _)
    have hcs : sep ∉ cs := fun hh => h (List.mem_cons_of_mem _ hh)
    simp only [splitOnChar, if_neg hc, ih hcs]

theorem splitOnChar_append {sep : Char} {xs : List Char} (ys : List Char) (h : sep ∉ xs) :
    splitOnChar sep (xs ++ sep :: ys) = xs :: splitOnChar sep ys := by
  induction xs with
  | nil => simp [splitOnChar]
  | cons c cs ih =>
    have hc : ¬ c = sep := fun hh => h (hh ▸ List.mem_cons_self _ _)
    have hcs : sep ∉ cs := fun hh => h (List.mem_cons_of_mem _ hh)
    simp only [List.cons_append, splitOnChar, if_neg hc, List.append_eq, ih hcs]

theorem map_id_of_fixed {α : Type} (l : List α) (f : α → α) (h : ∀ a ∈ l, f a = a) :
    l.map f = l := by
  induction l with
  | nil => rfl
  | cons a rest ih =>
    rw [List.map_cons, h a (List.mem_cons_self _ _),
      ih (fun b hb => h b (List.mem_cons_of_mem _ hb))]

theorem natRepr_not_all {k : Nat} (_hk : 0 < k) :
    ¬ ((trimChars (natRepr k)).map Char.toLower = "all".data) := by
  rw [trimChars_id _ (fun c hc => (natRepr_mem_props hc).2.2.1)]
  rw [map_id_of_fixed _ _ (fun c hc => (natRepr_mem_props hc).2.1)]
  intro heq
  have hmem : 'a' ∈ natRepr k := by
    rw [heq]
    decide
  exact (natRepr_mem_props hmem).2.2.2.2.2.2 rfl

theorem parseSelection_natRepr_err {k n : Nat} (hk : 0 < k) (hkn : n < k) :
    parseSelection (natRepr k) n = Except.error () := by
  unfold parseSelection
  rw [if_neg (natRepr_not_all hk)]
  rw [splitOnChar_not_mem (fun hmem => (natRepr_mem_props hmem).2.2.2.1 rfl)]
  have hpp : processParts n [natRepr k] [] = Except.error () := by
    simp only [processParts]
    rw [trimChars_id _ (fun c hc => (natRepr_mem_props hc).2.2.1)]
    have hA : ¬ (natRepr k).isEmpty = true := by
      simp only [List.isEmpty_iff]
      exact natRepr_ne_nil hk
    rw [if_neg hA]
    have hB : ¬ (natRepr k).any (fun c => c = '-') = true := by
      intro hany
      obtain ⟨c, hc, heq⟩ := List.any_eq_true.mp hany
      exact (natRepr_mem_props hc).2.2.2.2.1 (of_decide_eq_true heq)
    rw [if_neg hB, parseUsize_natRepr hk]
    dsimp only
    have hC : ((k == 0) || decide (k > n)) = true := by
      simp [hkn]
    rw [if_pos hC]
  rw [hpp]

theorem parseSelection_range_err {a b n : Nat} (ha : 0 < a) (hb : 0 < b)
    (hcond : (decide (a > b) || (a == 0) || decide (b > n)) = true) :
    parseSelection (natRepr a ++ '-' :: natRepr b) n = Except.error () := by
  have hchars : ∀ c ∈ natRepr a ++ '-' :: natRepr b,
      c.isWhitespace = false ∧ Char.toLower c = c ∧ ¬ c = ',' := by
    intro c hc
    rcases List.mem_append.mp hc with h1 | h1
    · obtain ⟨_, p2, p3, p4, _⟩ := natRepr_mem_props h1
      exact ⟨p3, p2, p4⟩
    · rcases List.mem_cons.mp h1 with h2 | h2
      · subst h2
        exact ⟨by decide, by decide, by decide⟩
      · obtain ⟨_, p2, p3, p4, _⟩ := natRepr_mem_props h2
        exact ⟨p3, p2, p4⟩
  unfold parseSelection
  have hnotall : ¬ (((trimChars (natRepr a ++ '-' :: natRepr b)).map Char.toLower) =
      "all".data) := by
    rw [trimChars_id _ (fun c hc => (hchars c hc).1)]
    rw [map_id_of_fixed _ _ (fun c hc => (hchars c hc).2.1)]
    intro heq
    have hmem : 'a' ∈ natRepr a ++ '-' :: natRepr b := by
      rw [heq]
      decide
    rcases List.mem_append.mp hmem with h1 | h1
    · exact (natRepr_mem_props h1).2.2.2.2.2.2 rfl
    · rcases List.mem_cons.mp h1 with h2 | h2
      · exact absurd h2 (by decide)
      · exact (natRepr_mem_props h2).2.2.2.2.2.2 rfl
  rw [if_neg hnotall]
  rw [splitOnChar_not_mem (fun hmem => (hchars _ hmem).2.2 rfl)]
  have hpp : processParts n [natRepr a ++ '-' :: natRepr b] [] = Except.error () := by
    simp only [processParts]
    rw [trimChars_id _ (fun c hc => (hchars c hc).1)]
    have hA : ¬ (natRepr a ++ '-' :: natRepr b).isEmpty = true := by
      simp only [List.isEmpty_iff]
      intro hh
      exact absurd (List.append_eq_nil.mp hh).2 (by simp)
    rw [if_neg hA]
    have hB : (natRepr a ++ '-' :: natRepr b).any (fun c => c = '-') = true := by
      refine List.any_eq_true.mpr ⟨'-', ?_, by decide⟩
      exact List.mem_append.mpr (Or.inr (List.mem_cons_self _ _))
    rw [if_pos hB]
    rw [splitOnChar_append _ (fun hmem => (natRepr_mem_props hmem).2.2.2.2.1 rfl)]
    rw [splitOnChar_not_mem (fun hmem => (natRepr_mem_props hmem).2.2.2.2.1 rfl)]
    dsimp only
    rw [trimChars_id _ (fun c hc => (natRepr_mem_props hc).2.2.1),
      trimChars_id _ (fun c hc => (natRepr_mem_props hc).2.2.1)]
    rw [parseUsize_natRepr ha, parseUsize_natRepr hb]
    dsimp only
    rw [if_pos hcond]
  rw [hpp]

theorem insertOnce_nodup {α : Type} [DecidableEq α] {l : List α} (h : l.Nodup) (x : α) :
    (insertOnce l x).Nodup := by
  unfold insertOnce
  by_cases hx : x ∈ l
  · rw [if_pos hx]
    exact h
  · rw [if_neg hx]
    refine h.append (List.nodup_singleton x) ?_
    intro b hb hb2
    simp only [List.mem_singleton] at hb2
    subst hb2
    exact hx hb

theorem foldl_insertOnce_nodup {α : Type} [DecidableEq α] (xs : List α) :
    ∀ {l : List α}, l.Nodup → (List.foldl insertOnce l xs).Nodup := by
  induction xs with
  | nil => intro l h; exact h
  | cons x rest ih =>
    intro l h
    rw [List.foldl_cons]
    exact ih (insertOnce_nodup h x)

theorem processParts_nodup (maxCount : Nat) (parts : List (List Char)) :
    ∀ (selected l : List Nat), selected.Nodup →
      processParts maxCount parts selected = Except.ok l → l.Nodup := by
  induction parts with
  | nil =>
    intro selected l h hp
    simp only [processParts, Except.ok.injEq] at hp
    subst hp
    exact h
  | cons p ps ih =>
    intro selected l h hp
    simp only [processParts] at hp
    split at hp
    · exact ih selected l h hp
    · split at hp
      · split at hp
        · split at hp
          · split at hp
            · simp at hp
            · exact ih _ l (foldl_insertOnce_nodup _ h) hp
          · simp at hp
          · simp at hp
        · exact ih selected l h hp
      · split at hp
        · split at hp
          · simp at hp
          · exact ih _ l (insertOnce_nodup h _) hp
        · simp at hp

theorem sorted_lt_range' (n : Nat) : ∀ s : Nat, List.Sorted (fun x y => x < y) (List.range' s n) := by
  induction n with
  | zero => intro s; simp [List.range']
  | succ k ih =>
    intro s
    rw [List.range'_succ]
    rw [List.sorted_cons]
    refine ⟨?_, ih (s + 1)⟩
    intro b hb
    have := (List.mem_range'_1.mp hb).1
    omega

/-- C10: every list parse_selection returns is strictly increasing: the
selection set is deduplicated and emitted in ascending numeric order, no
matter in what order the user typed the numbers. -/
theorem parseSelection_sorted (input : List Char) (maxCount : Nat) (l : List Nat)
    (h : parseSelection input maxCount = Except.ok l) :
    List.Sorted (fun x y => x < y) l := by
  unfold parseSelection at h
  split at h
  · simp only [Except.ok.injEq] at h
    subst h
    exact sorted_lt_range' maxCount 1
  · split at h
    · simp at h
    · rename_i selected hsel
      simp only [Except.ok.injEq] at h
      subst h
      have hnodup : selected.Nodup :=
        processParts_nodup maxCount _ [] selected List.nodup_nil hsel
      have hsorted := List.sorted_insertionSort (fun x y => x ≤ y) selected
      have hnodup2 : (List.insertionSort (fun x y => x ≤ y) selected).Nodup :=
        (List.perm_insertionSort (fun x y => x ≤ y) selected).symm.nodup hnodup
      exact List.Sorted.lt_of_le hsorted hnodup2

/-- C10 witness: the out-of-order, duplicated input 3,1,3 resolves to the
strictly increasing list [1, 3]. -/
theorem parseSelection_sorted_witness :
    parseSelection ("3,1,3".data) 5 = Except.ok [1, 3] ∧
      List.Sorted (fun x y => x < y) [1, 3] :=
  ⟨rfl, parseSelection_sorted ("3,1,3".data) 5 [1, 3] rfl⟩

/-- C8: the worked selection scenarios: 1,3,5-7 against 8 candidates
resolves to [1, 3, 5, 6, 7]; all resolves to every candidate 1..n; the
input 0 is rejected; a single number above the candidate count is rejected;
a range whose upper bound exceeds the candidate count is rejected, as is a
reversed range (which is what a lower bound exceeding the count forces). -/
theorem parseSelection_scenarios :
    parseSelection ("1,3,5-7".data) 8 = Except.ok [1, 3, 5, 6, 7] ∧
    (∀ n : Nat, parseSelection ("all".data) n = Except.ok (List.range' 1 n)) ∧
    parseSelection ("0".data) 8 = Except.error () ∧
    (∀ k n : Nat, 0 < k → n < k → parseSelection (natRepr k) n = Except.error ()) ∧
    (∀ a b n : Nat, 0 < a → 0 < b → n < b →
      parseSelection (natRepr a ++ '-' :: natRepr b) n = Except.error ()) ∧
    (∀ a b n : Nat, 0 < b → b < a →
      parseSelection (natRepr a ++ '-' :: natRepr b) n = Except.error ()) :=
  ⟨rfl, fun _ => rfl, rfl,
    fun _ _ hk hkn => parseSelection_natRepr_err hk hkn,
    fun _ _ _ ha hb hbn => parseSelection_range_err ha hb (by simp [hbn]),
    fun _ _ _ hb hba => parseSelection_range_err (lt_trans hb hba) hb (by simp [hba])⟩

/-- C8 witness: the single number 9 against 8 candidates is rejected. -/
theorem parseSelection_scenarios_witness :
    parseSelection (natRepr 9) 8 = Except.error () :=
  parseSelection_scenarios.2.2.2.1 9 8 (by decide) (by decide)

end ArchiView
